import Mathlib

unseal Rat.mul Rat.add Rat.sub Rat.inv Rat.ofScientific

deriving instance DecidableEq for Except

/-!
Shallow embedding of the runlog ingestion pipeline (src/runlog_ingest.py).

Python floating point values are modelled as exact rationals (`Rat`); all the
numeric strings exercised here denote finite decimals, so the modelled
arithmetic coincides with the source on every input we reason about
(non-finite floats and binary rounding of halfway cases are outside scope and
are noted where relevant).  Python `str` values are modelled as `String`,
dictionaries as insertion-ordered association lists, and the filesystem as a
record holding the optional contents of the store file and of its backup.
-/

namespace Runlog

/-- pyIsSpace lists the whitespace characters stripped by Python `str.strip()`
and tolerated by `float()` / `int()`; restricted to the ASCII whitespace that
can occur in CSV fields. -/
def pyIsSpace (c : Char) : Bool :=
  c = ' ' || c = '\t' || c = '\n' || c = '\r'

/-- strip models Python `str.strip()`: drop whitespace from both ends. -/
def strip (cs : List Char) : List Char :=
  ((cs.dropWhile pyIsSpace).reverse.dropWhile pyIsSpace).reverse

/-- stripS is strip on `String`. -/
def stripS (s : String) : String := ⟨strip s.data⟩

/-- lowerStr models Python `str.lower()` (ASCII fields). -/
def lowerStr (s : String) : String := ⟨s.data.map Char.toLower⟩

/-- isDig recognises an ASCII decimal digit. -/
def isDig (c : Char) : Bool := '0' ≤ c && c ≤ '9'

/-- digVal is the numeric value of an ASCII digit. -/
def digVal (c : Char) : Nat := c.toNat - '0'.toNat

/-- natOfDigits folds a digit list into the denoted natural number. -/
def natOfDigits (ds : List Char) : Nat :=
  ds.foldl (fun n c => n * 10 + digVal c) 0

/-- digRunAux consumes `(('_')? digit)*` continuing a digit run, per the
Python numeric literal rule that a single underscore may separate digits.
Returns the digits read and the unconsumed remainder. -/
def digRunAux : List Char → (List Char × List Char)
  | [] => ([], [])
  | [c] => if isDig c then ([c], []) else ([], [c])
  | c :: c2 :: cs =>
    if isDig c then
      let r := digRunAux (c2 :: cs)
      (c :: r.1, r.2)
    else if c = '_' && isDig c2 then
      let r := digRunAux cs
      (c2 :: r.1, r.2)
    else ([], c :: c2 :: cs)

/-- digRun parses a nonempty Python digit run (underscores allowed between
digits), or fails. -/
def digRun : List Char → Option (List Char × List Char)
  | [] => none
  | c :: cs =>
    if isDig c then
      let r := digRunAux cs
      some (c :: r.1, r.2)
    else none

/-- readSign consumes an optional leading sign, returning ±1. -/
def readSign : List Char → (Int × List Char)
  | '+' :: cs => (1, cs)
  | '-' :: cs => (-1, cs)
  | cs => (1, cs)

/-- ratPow10 is 10^e over the rationals for an integer exponent. -/
def ratPow10 (e : Int) : Rat :=
  if 0 ≤ e then ((10 : Rat) ^ e.toNat) else 1 / ((10 : Rat) ^ (-e).toNat)

/-- readMantissa parses the significand part of a Python float literal:
`digits [. [digits]]` or `. digits`, yielding its exact rational value. -/
def readMantissa (cs : List Char) : Option (Rat × List Char) :=
  match digRun cs with
  | some (ds, rest) =>
    match rest with
    | '.' :: rest2 =>
      match digRun rest2 with
      | some (fs, rest3) =>
        some ((natOfDigits ds : Rat) + (natOfDigits fs : Rat) / (10 : Rat) ^ fs.length, rest3)
      | none => some ((natOfDigits ds : Rat), rest2)
    | _ => some ((natOfDigits ds : Rat), rest)
  | none =>
    match cs with
    | '.' :: rest2 =>
      match digRun rest2 with
      | some (fs, rest3) =>
        some ((natOfDigits fs : Rat) / (10 : Rat) ^ fs.length, rest3)
      | none => none
    | _ => none

/-- readExp parses the optional exponent part of a Python float literal. -/
def readExp : List Char → Option (Int × List Char)
  | [] => some (0, [])
  | c :: cs =>
    if c = 'e' || c = 'E' then
      let s := readSign cs
      match digRun s.2 with
      | some (ds, rest) => some (s.1 * (natOfDigits ds : Int), rest)
      | none => none
    else some (0, c :: cs)

/-- pyFloatL models Python `float()` applied to a character list: surrounding
whitespace tolerated, optional sign, decimal significand, optional exponent.
Non-finite inputs (`inf`, `nan`) have no rational denotation and are not
modelled. -/
def pyFloatL (cs0 : List Char) : Option Rat :=
  let cs := strip cs0
  let s := readSign cs
  match readMantissa s.2 with
  | some (man, rest) =>
    match readExp rest with
    | some (e, rest2) =>
      if rest2 = [] then some ((s.1 : Rat) * man * ratPow10 e) else none
    | none => none
  | none => none

/-- pyFloat models Python `float(str)`. -/
def pyFloat (s : String) : Option Rat := pyFloatL s.data

/-- pyInt models Python `int(str)`: surrounding whitespace, optional sign,
decimal digit run (underscores allowed between digits). -/
def pyInt (s : String) : Option Int :=
  let cs := strip s.data
  let sg := readSign cs
  match digRun sg.2 with
  | some (ds, rest) => if rest = [] then some (sg.1 * (natOfDigits ds : Int)) else none
  | none => none

/-- roundHalfEven models Python `round()` to an integer (banker's rounding). -/
def roundHalfEven (q : Rat) : Int :=
  let f : Int := q.floor
  let r : Rat := q - (f : Rat)
  if r < 1 / 2 then f
  else if 1 / 2 < r then f + 1
  else if f % 2 = 0 then f else f + 1

/-- round2 models Python `round(x, 2)` on the exact rational value. -/
def round2 (q : Rat) : Rat := (roundHalfEven (q * 100) : Rat) / 100

/-- groupTake consumes one optional regex group `(?:(\d+)X)?` for the letter
X: the group is taken exactly when a nonempty digit run followed by the
letter is present, which coincides with the regex engine's backtracking on
this pattern (taking fewer digits can never help, since the next character
would then be a digit, not the letter). -/
def groupTake (letter : Char) (cs : List Char) : Option Nat × List Char :=
  if cs.takeWhile isDig ≠ [] ∧ (cs.dropWhile isDig).head? = some letter then
    (some (natOfDigits (cs.takeWhile isDig)), (cs.dropWhile isDig).tail)
  else (none, cs)

/-- hmMatch models `re.fullmatch(r'(?:(\d+)h)?(?:(\d+)m)?', s)` on an already
stripped and lowercased input, returning the two optional captured groups;
the full match succeeds when the remainder after both optional groups is
empty. -/
def hmMatch (cs : List Char) : Option (Option Nat × Option Nat) :=
  let s1 := groupTake 'h' cs
  let s2 := groupTake 'm' s1.2
  if s2.2 = [] then some (s1.1, s2.1) else none

/-- parse_time models `parse_time` (src/runlog_ingest.py lines 61-76): first
try a direct float conversion, otherwise the `(<int>h)?(<int>m)?` pattern on
the stripped, lowercased value, with absent groups defaulting to 0 and the
result rounded to 2 decimal places. -/
def parse_time (value : String) : Except String Rat :=
  match pyFloat value with
  | some q => .ok q
  | none =>
    match hmMatch (strip value.data |>.map Char.toLower) with
    | some (oh, om) =>
      .ok (round2 ((oh.getD 0 : Rat) + (om.getD 0 : Rat) / 60))
    | none => .error ("Invalid time format: " ++ value)

/-- intTrunc models Python `int()` applied to a float value: truncation toward
zero. -/
def intTrunc (q : Rat) : Int := Int.tdiv q.num (q.den : Int)

/-- scaleBy converts a numeric prefix via `float()` and multiplies by a scale,
modelling `float(value) * scale`; the error is the `ValueError` text shape of
a failed float conversion. -/
def scaleBy (cs : List Char) (m : Nat) : Except String Rat :=
  match pyFloatL cs with
  | some q => .ok (q * (m : Rat))
  | none => .error "could not convert string to float"

/-- parse_coin_value models `parse_coin_value` (src/runlog_ingest.py lines
36-47): strip, inspect the trailing suffix letter (q, Q, T, B in source
order), multiply the remaining numeric text by the bound scale; an unsuffixed
value defaults to Trillions. -/
def parse_coin_value (raw : String) : Except String Rat :=
  let value := strip raw.data
  if value.getLast? = some 'q' then scaleBy value.dropLast 1000000000000000
  else if value.getLast? = some 'Q' then scaleBy value.dropLast 1000000000000000000
  else if value.getLast? = some 'T' then scaleBy value.dropLast 1000000000000
  else if value.getLast? = some 'B' then scaleBy value.dropLast 1000000000
  else scaleBy value 1000000000000

/-- parse_cell_or_dice_value models `parse_cell_or_dice_value`
(src/runlog_ingest.py lines 49-56): suffixes M and K, unsuffixed values
default to Thousands. -/
def parse_cell_or_dice_value (raw : String) : Except String Rat :=
  let value := strip raw.data
  if value.getLast? = some 'M' then scaleBy value.dropLast 1000000
  else if value.getLast? = some 'K' then scaleBy value.dropLast 1000
  else scaleBy value 1000

/-- coin_magnitude composes `int(parse_coin_value(raw))` as done at the call
site (src line 95), yielding the integer magnitude of the spec's
parseMagnitudeShorthand with the coin table. -/
def coin_magnitude (raw : String) : Except String Int :=
  (parse_coin_value raw).map intTrunc

/-- cell_magnitude composes `int(parse_cell_or_dice_value(raw))` as done at
the call sites (src lines 96 and 100), the spec's parseMagnitudeShorthand
with the cell/dice table. -/
def cell_magnitude (raw : String) : Except String Int :=
  (parse_cell_or_dice_value raw).map intTrunc

/-- PyDate is a calendar date as validated by the `datetime` constructor. -/
structure PyDate where
  year : Nat
  month : Nat
  day : Nat
deriving DecidableEq

/-- isLeap is the Gregorian leap year rule. -/
def isLeap (y : Nat) : Bool := y % 4 = 0 && (y % 100 ≠ 0 || y % 400 = 0)

/-- daysInMonth gives the number of days of a month. -/
def daysInMonth (y m : Nat) : Nat :=
  if m = 2 then (if isLeap y then 29 else 28)
  else if m = 4 ∨ m = 6 ∨ m = 9 ∨ m = 11 then 30
  else 31

/-- validDate is the `datetime` constructor's validation (MINYEAR 1 to
MAXYEAR 9999, month 1-12, day within the month). -/
def validDate (y m d : Nat) : Bool :=
  1 ≤ y && y ≤ 9999 && 1 ≤ m && m ≤ 12 && 1 ≤ d && d ≤ daysInMonth y m

/-- monthCands lists the parses of the CPython strptime month directive, whose
regex is two-digit alternatives before the single-digit one; returned in
regex alternation order so that backtracking can be replayed. -/
def monthCands : List Char → List (Nat × List Char)
  | [] => []
  | [c1] => if '1' ≤ c1 && c1 ≤ '9' then [(digVal c1, [])] else []
  | c1 :: c2 :: rest =>
    let two :=
      if (c1 = '1' && '0' ≤ c2 && c2 ≤ '2') || (c1 = '0' && '1' ≤ c2 && c2 ≤ '9') then
        [(digVal c1 * 10 + digVal c2, rest)]
      else []
    let one := if '1' ≤ c1 && c1 ≤ '9' then [(digVal c1, c2 :: rest)] else []
    two ++ one

/-- dayCands lists the parses of the CPython strptime day directive
(`3[01]|[12]\d|0[1-9]|[1-9]`) in regex alternation order. -/
def dayCands : List Char → List (Nat × List Char)
  | [] => []
  | [c1] => if '1' ≤ c1 && c1 ≤ '9' then [(digVal c1, [])] else []
  | c1 :: c2 :: rest =>
    let two :=
      if (c1 = '3' && ('0' ≤ c2 && c2 ≤ '1')) ||
         (('1' ≤ c1 && c1 ≤ '2') && isDig c2) ||
         (c1 = '0' && '1' ≤ c2 && c2 ≤ '9') then
        [(digVal c1 * 10 + digVal c2, rest)]
      else []
    let one := if '1' ≤ c1 && c1 ≤ '9' then [(digVal c1, c2 :: rest)] else []
    two ++ one

/-- year4 parses the exactly-four-digit strptime year directive. -/
def year4 : List Char → Option (Nat × List Char)
  | a :: b :: c :: d :: rest =>
    if isDig a && isDig b && isDig c && isDig d then
      some (natOfDigits [a, b, c, d], rest)
    else none
  | _ => none

/-- year2 parses the two-digit strptime year directive with CPython's century
rule: 0-68 maps into the 2000s, 69-99 into the 1900s. -/
def year2 : List Char → Option (Nat × List Char)
  | a :: b :: rest =>
    if isDig a && isDig b then
      let v := digVal a * 10 + digVal b
      some (if v ≤ 68 then 2000 + v else 1900 + v, rest)
    else none
  | _ => none

/-- litSep consumes one literal separator character. -/
def litSep (sep : Char) : List Char → Option (List Char)
  | c :: rest => if c = sep then some rest else none
  | [] => none

/-- firstHit tries each alternative parse in order, replaying regex
backtracking: the first alternative whose continuation succeeds wins. -/
def firstHit {α β : Type} (cands : List (α × List Char)) (k : α → List Char → Option β) :
    Option β :=
  match cands with
  | [] => none
  | (v, rest) :: more =>
    match k v rest with
    | some b => some b
    | none => firstHit more k

/-- DateFmt is one of the six accepted date formats: year-month-day,
month-day-4-digit-year or month-day-2-digit-year, with a separator. -/
inductive DateFmt where
  | ymd (sep : Char)
  | mdY (sep : Char)
  | mdy (sep : Char)
deriving DecidableEq

/-- KNOWN_DATE_FORMATS models the constant at src/runlog_ingest.py line 20. -/
def KNOWN_DATE_FORMATS : List DateFmt :=
  [.ymd '-', .ymd '/', .mdY '-', .mdY '/', .mdy '-', .mdy '/']

/-- strptime models `datetime.strptime` restricted to the six formats of
KNOWN_DATE_FORMATS: the CPython directive regexes with backtracking, a full
match of the input, and the `datetime` constructor's calendar validation. -/
def strptime (fmt : DateFmt) (cs : List Char) : Option PyDate :=
  match fmt with
  | .ymd sep =>
    match year4 cs with
    | none => none
    | some (y, r1) =>
      match litSep sep r1 with
      | none => none
      | some r2 =>
        firstHit (monthCands r2) fun m r3 =>
          match litSep sep r3 with
          | none => none
          | some r4 =>
            firstHit (dayCands r4) fun d r5 =>
              if r5 = [] ∧ validDate y m d then some ⟨y, m, d⟩ else none
  | .mdY sep =>
    firstHit (monthCands cs) fun m r1 =>
      match litSep sep r1 with
      | none => none
      | some r2 =>
        firstHit (dayCands r2) fun d r3 =>
          match litSep sep r3 with
          | none => none
          | some r4 =>
            match year4 r4 with
            | none => none
            | some (y, r5) =>
              if r5 = [] ∧ validDate y m d then some ⟨y, m, d⟩ else none
  | .mdy sep =>
    firstHit (monthCands cs) fun m r1 =>
      match litSep sep r1 with
      | none => none
      | some r2 =>
        firstHit (dayCands r2) fun d r3 =>
          match litSep sep r3 with
          | none => none
          | some r4 =>
            match year2 r4 with
            | none => none
            | some (y, r5) =>
              if r5 = [] ∧ validDate y m d then some ⟨y, m, d⟩ else none

/-- firstSome returns the first successful application of f along a list. -/
def firstSome {α β : Type} (f : α → Option β) : List α → Option β
  | [] => none
  | x :: xs =>
    match f x with
    | some b => some b
    | none => firstSome f xs

/-- parse_date models `parse_date` (src/runlog_ingest.py lines 28-34): try
each known format on the stripped input, return the first success, raise
otherwise. -/
def parse_date (raw : String) : Except String PyDate :=
  match firstSome (fun fmt => strptime fmt (strip raw.data)) KNOWN_DATE_FORMATS with
  | some d => .ok d
  | none => .error ("Invalid date format: " ++ raw)

/-- daysFromCivil counts days from 1970-01-01 (civil-from-days algorithm);
inputs come from validDate so the year is at least 1. -/
def daysFromCivil (y m d : Nat) : Int :=
  let yi : Int := if m ≤ 2 then (y : Int) - 1 else (y : Int)
  let era : Int := Int.tdiv yi 400
  let yoe : Int := yi - era * 400
  let mp : Int := if 2 < m then (m : Int) - 3 else (m : Int) + 9
  let doy : Int := Int.tdiv (153 * mp + 2) 5 + (d : Int) - 1
  let doe : Int := yoe * 365 + Int.tdiv yoe 4 - Int.tdiv yoe 100 + doy
  era * 146097 + doe - 719468

/-- epochOf models `int(dt.timestamp())` for the naive midnight datetime
produced by strptime; the local timezone offset is modelled as zero (no claim
depends on the offset). -/
def epochOf (dt : PyDate) : Int :=
  daysFromCivil dt.year dt.month dt.day * 86400

/-- pad2 zero-pads a number to two digits. -/
def pad2 (n : Nat) : String := if n < 10 then "0" ++ toString n else toString n

/-- pad4 zero-pads a number to four digits. -/
def pad4 (n : Nat) : String :=
  if n < 10 then "000" ++ toString n
  else if n < 100 then "00" ++ toString n
  else if n < 1000 then "0" ++ toString n
  else toString n

/-- isoFormat models `dt.strftime("%Y-%m-%d")`. -/
def isoFormat (dt : PyDate) : String :=
  pad4 dt.year ++ "-" ++ pad2 dt.month ++ "-" ++ pad2 dt.day

/-- charPositions lists, in ascending order, the positions of a character in
the second sequence, as in the b2j index of difflib.SequenceMatcher. -/
def charPositions (b : List Char) (c : Char) : List Nat :=
  (b.enum.filter (fun p => p.2 = c)).map (fun p => p.1)

/-- b2j models the difflib index of the second sequence including the
autojunk rule: for a second sequence of length at least 200, characters
occurring in more than 1% of it are dropped from the index. -/
def b2j (b : List Char) (c : Char) : List Nat :=
  let pos := charPositions b c
  if b.length ≥ 200 && pos.length > b.length / 100 + 1 then [] else pos

/-- aGet reads a character at a position (positions produced by the matching
loops are always in range). -/
def aGet (a : List Char) (i : Nat) : Char := a.getD i ' '

/-- flmRow is one row of the difflib find_longest_match dynamic programme:
for a fixed position i of the first sequence it folds over the index
positions of a[i] in the second sequence, building the new suffix-length map
and the current best block. -/
def flmRow (oldLen : Nat → Nat) (js : List Nat) (blo bhi : Nat) (i : Nat)
    (best : Nat × Nat × Nat) : (Nat → Nat) × (Nat × Nat × Nat) :=
  js.foldl
    (fun acc j =>
      if blo ≤ j ∧ j < bhi then
        let k := (if j = 0 then 0 else oldLen (j - 1)) + 1
        let nj : Nat → Nat := fun x => if x = j then k else acc.1 x
        let b2 := if k > acc.2.2.2 then (i + 1 - k, j + 1 - k, k) else acc.2
        (nj, b2)
      else acc)
    ((fun _ => 0), best)

/-- flmLoop folds flmRow over the positions of the first sequence. -/
def flmLoop (a b : List Char) (blo bhi : Nat) :
    List Nat → (Nat → Nat) → (Nat × Nat × Nat) → (Nat × Nat × Nat)
  | [], _, best => best
  | i :: is, j2len, best =>
    let r := flmRow j2len (b2j b (aGet a i)) blo bhi i best
    flmLoop a b blo bhi is r.1 r.2

/-- extendBack models the backward extension phase of find_longest_match
(the junk set is empty here, so the block extends through every equal
character); the fuel is the current block start, which bounds the steps. -/
def extendBack (a b : List Char) (alo blo : Nat) :
    Nat → Nat × Nat × Nat → Nat × Nat × Nat
  | 0, best => best
  | fuel + 1, (bi, bj, bs) =>
    if alo < bi ∧ blo < bj ∧ aGet a (bi - 1) = aGet b (bj - 1) then
      extendBack a b alo blo fuel (bi - 1, bj - 1, bs + 1)
    else (bi, bj, bs)

/-- extendFwd models the forward extension phase of find_longest_match. -/
def extendFwd (a b : List Char) (ahi bhi : Nat) :
    Nat → Nat × Nat × Nat → Nat × Nat × Nat
  | 0, best => best
  | fuel + 1, (bi, bj, bs) =>
    if bi + bs < ahi ∧ bj + bs < bhi ∧ aGet a (bi + bs) = aGet b (bj + bs) then
      extendFwd a b ahi bhi fuel (bi, bj, bs + 1)
    else (bi, bj, bs)

/-- find_longest_match models difflib.SequenceMatcher.find_longest_match on
the slice [alo, ahi) × [blo, bhi). -/
def find_longest_match (a b : List Char) (alo ahi blo bhi : Nat) : Nat × Nat × Nat :=
  let core := flmLoop a b blo bhi ((List.range (ahi - alo)).map (alo + ·))
    (fun _ => 0) (alo, blo, 0)
  let back := extendBack a b alo blo core.1 core
  extendFwd a b ahi bhi ahi back

/-- matchTotal sums the sizes of the difflib matching blocks by the recursive
splitting of get_matching_blocks; the fuel dominates the recursion depth
(each split strictly shrinks the combined slice size). -/
def matchTotal (a b : List Char) : Nat → Nat × Nat × Nat × Nat → Nat
  | 0, _ => 0
  | fuel + 1, (alo, ahi, blo, bhi) =>
    let r := find_longest_match a b alo ahi blo bhi
    if r.2.2 = 0 then 0
    else
      matchTotal a b fuel (alo, r.1, blo, r.2.1) + r.2.2 +
        matchTotal a b fuel (r.1 + r.2.2, ahi, r.2.1 + r.2.2, bhi)

/-- similarity models difflib.SequenceMatcher(None, a, b).ratio(): twice the
total matched size over the total length (1 for two empty sequences). -/
def similarity (a b : List Char) : Rat :=
  let la := a.length
  let lb := b.length
  let m := matchTotal a b (la + lb + 1) (0, la, 0, lb)
  if la + lb = 0 then 1 else (2 * m : Rat) / ((la + lb : Nat) : Rat)

/-- lexLt is Python string comparison (code point lexicographic). -/
def lexLt : List Char → List Char → Bool
  | [], [] => false
  | [], _ :: _ => true
  | _ :: _, [] => false
  | a :: as, b :: bs => if a < b then true else if b < a then false else lexLt as bs

/-- bestScored returns the pair (similarity to the word, label) maximal in
Python tuple order among the given labels, modelling heapq.nlargest(1) over
the scored list built by difflib.get_close_matches. -/
def bestScored (word : List Char) : List String → Option (Rat × String)
  | [] => none
  | x :: xs =>
    let sx := similarity x.data word
    match bestScored word xs with
    | none => some (sx, x)
    | some (sq, q) =>
      if sx > sq || (sx = sq && lexLt q.data x.data) then some (sx, x) else some (sq, q)

/-- get_close_match1 models difflib.get_close_matches(word, possibilities,
n=1, cutoff): keep the possibilities whose ratio to the word reaches the
cutoff, return the one maximising (ratio, label).  The real_quick_ratio and
quick_ratio gates of difflib are documented upper bounds of ratio, so the
three-way gate is the single ratio comparison. -/
def get_close_match1 (word : String) (poss : List String) (cutoff : Rat) : Option String :=
  match bestScored word.data (poss.filter (fun x => similarity x.data word.data ≥ cutoff)) with
  | some p => some p.2
  | none => none

/-- VALID_RUN_TYPES models the constant at src/runlog_ingest.py line 17. -/
def VALID_RUN_TYPES : List String :=
  ["farm - overnight", "farm - day", "milestone", "tournament"]

/-- DEFAULT_RUN_TYPE models the constant at src/runlog_ingest.py line 18. -/
def DEFAULT_RUN_TYPE : String := "other"

/-- fuzzy_match_run_type models `fuzzy_match_run_type` (src/runlog_ingest.py
lines 22-26): empty input short-circuits to the default label, otherwise the
best close match of the lowercased value with cutoff 0.6, defaulting when
none qualifies. -/
def fuzzy_match_run_type (value : String) : String :=
  if value = "" then DEFAULT_RUN_TYPE
  else
    match get_close_match1 (lowerStr value) VALID_RUN_TYPES (3 / 5) with
    | some m => m
    | none => DEFAULT_RUN_TYPE

/-- JVal is a value held in a row dictionary: the raw strings of the CSV and
the typed values written back by the validator (Python str, int, float). -/
inductive JVal where
  | s (v : String)
  | i (v : Int)
  | q (v : Rat)
deriving DecidableEq

/-- RawRow is a CSV row as produced by csv.DictReader: field name to raw
string value, in header order. -/
abbrev RawRow := List (String × String)

/-- Row is a row dictionary after validation: insertion-ordered mapping from
field name to typed value. -/
abbrev Row := List (String × JVal)

/-- setKV models assignment on a Python dict: an existing key keeps its
position, a new key is appended at the end. -/
def setKV (k : String) (v : JVal) : Row → Row
  | [] => [(k, v)]
  | (k0, v0) :: rest => if k0 = k then (k, v) :: rest else (k0, v0) :: setKV k v rest

/-- keysOf lists the keys of a row dictionary in order. -/
def keysOf (r : Row) : List String := r.map (fun p => p.1)

/-- MANDATORY_FIELDS models the constant at src/runlog_ingest.py line 14. -/
def MANDATORY_FIELDS : List String := ["date", "tier", "time", "waves", "coins", "cells"]

/-- rowErr renders the `Row index+2: reason` error wrapper of validate_row
(src line 115); index+2 is the 1-based data row number past the header. -/
def rowErr (index : Nat) (msg : String) : String :=
  "Row " ++ toString (index + 2) ++ ": " ++ msg

/-- missingField finds the first mandatory field that is absent or blank
(src lines 83-86). -/
def missingField (row : RawRow) : Option String :=
  MANDATORY_FIELDS.find? fun f =>
    match row.lookup f with
    | none => true
    | some v => stripS v = ""

/-- recCore is the mutation of the row dict by the typed mandatory fields
(src lines 88-96): date rewritten to ISO form, epoch added, tier, time,
waves, coins, cells replaced by their parsed values. -/
def recCore (row : RawRow) (dt : PyDate) (tier : Int) (t : Rat)
    (waves coins cells : Int) : Row :=
  setKV "cells" (JVal.i cells)
    (setKV "coins" (JVal.i coins)
      (setKV "waves" (JVal.i waves)
        (setKV "time" (JVal.q t)
          (setKV "tier" (JVal.i tier)
            (setKV "epoch" (JVal.i (epochOf dt))
              (setKV "date" (JVal.s (isoFormat dt))
                (row.map (fun p => (p.1, JVal.s p.2)))))))))

/-- withReroll writes the rerolldice value and its per-hour rate (src lines
98-104). -/
def withReroll (rr rrph : JVal) (r : Row) : Row :=
  setKV "rerolldice_per_hour" rrph (setKV "rerolldice" rr r)

/-- finishFields performs the trailing mutations of validate_row (src lines
106-111): classify run_type and write the derived rates. -/
def finishFields (t : Rat) (coins cells : Int) (rawRunType : String) (r : Row) : Row :=
  setKV "cells_per_hour" (JVal.i (intTrunc ((cells : Rat) / t)))
    (setKV "coins_per_hour" (JVal.i (intTrunc ((coins : Rat) / t)))
      (setKV "run_type" (JVal.s (fuzzy_match_run_type (stripS rawRunType))) r))

/-- finishRow guards the rate computation: a time of exactly 0 raises a
ZeroDivisionError (src line 110) caught as the row's error; the run_type
assignment before it has no observable effect on an erroring row. -/
def finishRow (index : Nat) (t : Rat) (coins cells : Int) (rawRunType : String)
    (r : Row) : Except String Row :=
  if t = 0 then .error (rowErr index "float division by zero")
  else .ok (finishFields t coins cells rawRunType r)

/-- validate_row models `validate_row` (src/runlog_ingest.py lines 79-115).
Every exception of the body is caught and re-raised as a `ValueError` wrapped
with the row number, so all failures are row-scoped errors here.  The source
interleaves the field parses with dict mutations; since a parse failure
discards the row and every parse reads a field that no earlier mutation
touched, the parses are sequenced first and the mutations after, preserving
observable behaviour. -/
def validate_row (row : RawRow) (index : Nat) : Except String Row :=
  match missingField row with
  | some f => .error (rowErr index ("Missing value for " ++ f))
  | none =>
  match parse_date ((row.lookup "date").getD "") with
  | .error e => .error (rowErr index e)
  | .ok dt =>
  match pyInt ((row.lookup "tier").getD "") with
  | none => .error (rowErr index "invalid literal for int() with base 10: tier")
  | some tier =>
  match parse_time ((row.lookup "time").getD "") with
  | .error e => .error (rowErr index e)
  | .ok t =>
  match pyInt ((row.lookup "waves").getD "") with
  | none => .error (rowErr index "invalid literal for int() with base 10: waves")
  | some waves =>
  match parse_coin_value ((row.lookup "coins").getD "") with
  | .error e => .error (rowErr index e)
  | .ok coinsF =>
  match parse_cell_or_dice_value ((row.lookup "cells").getD "") with
  | .error e => .error (rowErr index e)
  | .ok cellsF =>
  if stripS ((row.lookup "rerolldice").getD "") ≠ "" then
    match parse_cell_or_dice_value (stripS ((row.lookup "rerolldice").getD "")) with
    | .error e => .error (rowErr index e)
    | .ok rrF =>
      if t = 0 then .error (rowErr index "float division by zero")
      else
        finishRow index t (intTrunc coinsF) (intTrunc cellsF)
          ((row.lookup "run_type").getD "")
          (withReroll (.i (intTrunc rrF)) (.i (intTrunc ((intTrunc rrF : Rat) / t)))
            (recCore row dt tier t waves (intTrunc coinsF) (intTrunc cellsF)))
  else
    finishRow index t (intTrunc coinsF) (intTrunc cellsF)
      ((row.lookup "run_type").getD "")
      (withReroll (.i 0) (.q 0)
        (recCore row dt tier t waves (intTrunc coinsF) (intTrunc cellsF)))

/-- RowErr is one recorded rejection: the 0-based row index of the enumerate
loop and the message printed for it. -/
structure RowErr where
  index : Nat
  msg : String
deriving DecidableEq

/-- ingestLoop models the reader loop of main (src lines 142-148): validate
each row with its enumerate index, append successes in order, record one
error per failing row and continue. -/
def ingestLoop (idx : Nat) : List RawRow → List Row × List RowErr
  | [] => ([], [])
  | r :: rs =>
    let rest := ingestLoop (idx + 1) rs
    match validate_row r idx with
    | .ok v => (v :: rest.1, rest.2)
    | .error m => (rest.1, ⟨idx, m⟩ :: rest.2)

/-- hex4 renders a code point below 0x10000 as four lowercase hex digits. -/
def hex4 (n : Nat) : String :=
  let dig := fun (k : Nat) => String.singleton (Nat.digitChar (n / 16 ^ k % 16))
  dig 3 ++ dig 2 ++ dig 1 ++ dig 0

/-- jsonEscapeChar models the default (ensure_ascii) string escaping of
json.dump for characters of the basic multilingual plane; the CSV fields
reasoned about are ASCII. -/
def jsonEscapeChar (c : Char) : String :=
  if c = '"' then "\\\""
  else if c = '\\' then "\\\\"
  else if c = '\n' then "\\n"
  else if c = '\t' then "\\t"
  else if c = '\r' then "\\r"
  else if c.toNat < 32 ∨ 126 < c.toNat then "\\u" ++ hex4 c.toNat
  else String.singleton c

/-- jsonStr renders a JSON string literal. -/
def jsonStr (s : String) : String :=
  "\"" ++ String.join (s.data.map jsonEscapeChar) ++ "\""

/-- fracDigits emits the decimal digits of a rational in [0, 1) until the
remainder vanishes, fuel-bounded; every float written by the pipeline has a
terminating decimal expansion. -/
def fracDigits : Rat → Nat → List Char
  | _, 0 => []
  | q, fuel + 1 =>
    if q = 0 then []
    else
      let q10 := q * 10
      Nat.digitChar q10.floor.toNat :: fracDigits (q10 - (q10.floor : Rat)) fuel

/-- floatRepr models Python repr of a finite float with a short terminating
decimal expansion (always at least one fractional digit, as json.dump writes
floats through repr). -/
def floatRepr (q : Rat) : String :=
  let sgn := if q < 0 then "-" else ""
  let a := if q < 0 then -q else q
  let ip := a.floor.toNat
  let ds := fracDigits (a - (a.floor : Rat)) 40
  sgn ++ toString ip ++ "." ++ (if ds = [] then "0" else String.mk ds)

/-- jvalRender renders one value as json.dump does. -/
def jvalRender : JVal → String
  | .s v => jsonStr v
  | .i n => toString n
  | .q q => floatRepr q

/-- jsonObj renders one record object at array depth with indent=2: entries
at four spaces, closing brace at two. -/
def jsonObj (r : Row) : String :=
  if r = [] then "\x7b\x7d"
  else
    "\x7b\n" ++
      String.intercalate ",\n"
        (r.map (fun p => "    " ++ jsonStr p.1 ++ ": " ++ jvalRender p.2)) ++
      "\n  \x7d"

/-- jsonDump models `json.dump(parsed_data, jf, indent=2)` (src line 157) for
a list of record objects. -/
def jsonDump (rs : List Row) : String :=
  if rs = [] then "[]"
  else "[\n  " ++ String.intercalate ",\n  " (rs.map jsonObj) ++ "\n]"

/-- FS is the filesystem as seen by the pipeline: the optional contents of
the store file (runlog.json) and of the dated backup file. -/
structure FS where
  store : Option String
  backup : Option String
deriving DecidableEq

/-- backup_existing_json models `backup_existing_json` (src lines 123-128):
when a store file exists it is moved to the dated backup path, overwriting
any previous backup of the same day; the I/O-failure warning branch is an
environment fault not modelled. -/
def backup_existing_json (fs : FS) : FS :=
  match fs.store with
  | some content => { store := none, backup := some content }
  | none => fs

/-- mainModel models `main` (src/runlog_ingest.py lines 130-162): a missing
input file (none) aborts before any work; otherwise every row is validated,
an empty accepted list aborts without touching the filesystem, and otherwise
the old store is moved to the backup and the accepted records are written as
indented JSON.  Observable outcome: final filesystem state, accepted records
and collected row errors. -/
def mainModel (input : Option (List RawRow)) (fs : FS) : FS × List Row × List RowErr :=
  match input with
  | none => (fs, [], [])
  | some rows =>
    let r := ingestLoop 0 rows
    if r.1 = [] then (fs, [], r.2)
    else
      let fs2 := backup_existing_json fs
      ({ fs2 with store := some (jsonDump r.1) }, r.1, r.2)

/-! Characterisations of the ingestion loop. -/

/-- errOf projects a validation outcome to the recorded error, if any. -/
def errOf (idx : Nat) (e : Except String Row) : Option RowErr :=
  match e with
  | .ok _ => none
  | .error m => some ⟨idx, m⟩

/-- ingestLoop_eq characterises the loop: the accepted list is the in-order
filter of the successfully validated rows, the error list the in-order
filter of the failures, each keyed by its enumerate index. -/
theorem ingestLoop_eq (rows : List RawRow) (idx : Nat) :
    ingestLoop idx rows =
      ((List.enumFrom idx rows).filterMap (fun p => (validate_row p.2 p.1).toOption),
       (List.enumFrom idx rows).filterMap (fun p => errOf p.1 (validate_row p.2 p.1))) := by
  induction rows generalizing idx with
  | nil => rfl
  | cons r rs ih =>
    cases h : validate_row r idx with
    | ok v =>
      simp [ingestLoop, List.enumFrom_cons, h, ih (idx + 1), Except.toOption, errOf]
    | error m =>
      simp [ingestLoop, List.enumFrom_cons, h, ih (idx + 1), Except.toOption, errOf]

/-- ingestLoop_append splits the loop over a concatenation of batches. -/
theorem ingestLoop_append (xs ys : List RawRow) (idx : Nat) :
    ingestLoop idx (xs ++ ys) =
      ((ingestLoop idx xs).1 ++ (ingestLoop (idx + xs.length) ys).1,
       (ingestLoop idx xs).2 ++ (ingestLoop (idx + xs.length) ys).2) := by
  induction xs generalizing idx with
  | nil => simp [ingestLoop]
  | cons r rs ih =>
    cases h : validate_row r idx with
    | ok v =>
      simp [ingestLoop, h, ih (idx + 1), Nat.add_assoc, Nat.add_comm 1 rs.length]
    | error m =>
      simp [ingestLoop, h, ih (idx + 1), Nat.add_assoc, Nat.add_comm 1 rs.length]

/-- ingestLoop_length_of_ok: when every row validates, the accepted list has
one record per input row. -/
theorem ingestLoop_length_of_ok (rows : List RawRow) (idx : Nat)
    (h : ∀ p ∈ List.enumFrom idx rows, (validate_row p.2 p.1).isOk = true) :
    (ingestLoop idx rows).1.length = rows.length := by
  induction rows generalizing idx with
  | nil => rfl
  | cons r rs ih =>
    have h0 := h (idx, r) (by simp [List.enumFrom_cons])
    cases hv : validate_row r idx with
    | ok v =>
      have := ih (idx + 1) (fun p hp => h p (by simp [List.enumFrom_cons, hp]))
      simp [ingestLoop, hv, this]
    | error m => simp [hv, Except.isOk, Except.toBool] at h0

/-- ingestLoop_nil_of_fail: when every row fails validation, the accepted
list is empty. -/
theorem ingestLoop_nil_of_fail (rows : List RawRow) (idx : Nat)
    (h : ∀ p ∈ List.enumFrom idx rows, (validate_row p.2 p.1).isOk = false) :
    (ingestLoop idx rows).1 = [] := by
  induction rows generalizing idx with
  | nil => rfl
  | cons r rs ih =>
    have h0 := h (idx, r) (by simp [List.enumFrom_cons])
    cases hv : validate_row r idx with
    | ok v => simp [hv, Except.isOk, Except.toBool] at h0
    | error m =>
      have := ih (idx + 1) (fun p hp => h p (by simp [List.enumFrom_cons, hp]))
      simp [ingestLoop, hv, this]

/-- claim C1 (amended): ingest processes all rows; accepted rows are appended
in input order with no reordering or deduplication, each failing row is
recorded as one RowError carrying its row index, and no malformed row aborts
the rest; a batch of N well-formed rows with N ≥ 1 is written as a store of
exactly N records (an all-rejected or empty batch writes nothing, per
NoValidRows). -/
theorem claim_C1 (rows : List RawRow) (fs : FS) :
    (ingestLoop 0 rows).1 =
        (List.enumFrom 0 rows).filterMap (fun p => (validate_row p.2 p.1).toOption) ∧
    (ingestLoop 0 rows).2 =
        (List.enumFrom 0 rows).filterMap (fun p => errOf p.1 (validate_row p.2 p.1)) ∧
    ((∀ p ∈ List.enumFrom 0 rows, (validate_row p.2 p.1).isOk = true) → rows ≠ [] →
      (ingestLoop 0 rows).1.length = rows.length ∧
      (mainModel (some rows) fs).1.store = some (jsonDump (ingestLoop 0 rows).1)) := by
  refine ⟨by rw [ingestLoop_eq], by rw [ingestLoop_eq], fun hok hne => ?_⟩
  have hlen := ingestLoop_length_of_ok rows 0 hok
  have hacc : (ingestLoop 0 rows).1 ≠ [] := by
    intro hnil
    apply hne
    have := hlen
    rw [hnil] at this
    exact List.length_eq_zero.mp this.symm
  refine ⟨hlen, ?_⟩
  simp only [mainModel, if_neg hacc]

/-- claim C1 counterexample: an empty batch (vacuously, N = 0 well-formed
rows) does not yield a store of 0 records; the pipeline aborts with
NoValidRows and leaves the pre-existing store untouched. -/
theorem claim_C1_counterexample :
    mainModel (some []) ⟨some "OLD", none⟩ = (⟨some "OLD", none⟩, [], []) ∧
    some "OLD" ≠ some (jsonDump []) := by
  constructor
  · rfl
  · decide

/-- c1Rows is a concrete two-row well-formed batch. -/
def c1Rows : List RawRow :=
  [[("date", "2024-01-01"), ("tier", "12"), ("time", "2.5"), ("waves", "100"),
    ("coins", "1.5T"), ("cells", "250K")],
   [("date", "01/02/03"), ("tier", "3"), ("time", "45m"), ("waves", "7"),
    ("coins", "500"), ("cells", "2M")]]

/-- claim C1 witness: the two-row batch is accepted in full and written. -/
theorem claim_C1_witness :
    (ingestLoop 0 c1Rows).1.length = c1Rows.length ∧
    (mainModel (some c1Rows) ⟨none, none⟩).1.store = some (jsonDump (ingestLoop 0 c1Rows).1) :=
  (claim_C1 c1Rows ⟨none, none⟩).2.2 (by decide) (by decide)

/-- claim C3: when every row of the batch fails validation the ingest aborts
with NoValidRows: no backup move, no write, the filesystem (store file and
backup file alike) is left exactly as before. -/
theorem claim_C3 (rows : List RawRow) (fs : FS)
    (h : ∀ p ∈ List.enumFrom 0 rows, (validate_row p.2 p.1).isOk = false) :
    mainModel (some rows) fs = (fs, [], (ingestLoop 0 rows).2) := by
  have hnil := ingestLoop_nil_of_fail rows 0 h
  simp [mainModel, hnil]

/-- c3Rows is a concrete batch whose rows all lack the date field. -/
def c3Rows : List RawRow :=
  [[("tier", "1"), ("time", "1"), ("waves", "1"), ("coins", "1"), ("cells", "1")],
   [("tier", "2"), ("time", "2"), ("waves", "2"), ("coins", "2"), ("cells", "2")]]

/-- claim C3 witness: a batch of rows all missing the date aborts and leaves
a pre-existing store and backup byte-for-byte unchanged. -/
theorem claim_C3_witness :
    mainModel (some c3Rows) ⟨some "OLD", some "BAK"⟩ =
      (⟨some "OLD", some "BAK"⟩, [], (ingestLoop 0 c3Rows).2) :=
  claim_C3 c3Rows ⟨some "OLD", some "BAK"⟩ (by decide)

/-- claim C2: a row whose time parses to exactly 0, all other mandatory
fields present and parseable, fails validation as a row-scoped error (the
ZeroDivisionError of the rate computation is caught and re-raised as the
row's ValueError) rather than an uncaught arithmetic fault, and a batch
containing such a row still processes every other row. -/
theorem claim_C2 (row : RawRow)
    (hmiss : missingField row = none)
    (hdate : (parse_date ((row.lookup "date").getD "")).isOk = true)
    (htier : (pyInt ((row.lookup "tier").getD "")).isSome = true)
    (htime : parse_time ((row.lookup "time").getD "") = .ok 0)
    (hwaves : (pyInt ((row.lookup "waves").getD "")).isSome = true)
    (hcoins : (parse_coin_value ((row.lookup "coins").getD "")).isOk = true)
    (hcells : (parse_cell_or_dice_value ((row.lookup "cells").getD "")).isOk = true) :
    (∀ idx, ∃ msg, validate_row row idx = .error msg) ∧
    (∀ pre post : List RawRow,
      (ingestLoop 0 (pre ++ row :: post)).1 =
        (ingestLoop 0 pre).1 ++ (ingestLoop (pre.length + 1) post).1 ∧
      ∃ msg, (ingestLoop 0 (pre ++ row :: post)).2 =
        (ingestLoop 0 pre).2 ++ ⟨pre.length, msg⟩ :: (ingestLoop (pre.length + 1) post).2) := by
  have herr : ∀ idx, ∃ msg, validate_row row idx = .error msg := by
    intro idx
    cases hd : parse_date ((row.lookup "date").getD "") with
    | error e => rw [hd] at hdate; simp [Except.isOk, Except.toBool] at hdate
    | ok d =>
    cases ht : pyInt ((row.lookup "tier").getD "") with
    | none => rw [ht] at htier; simp at htier
    | some tier =>
    cases hw : pyInt ((row.lookup "waves").getD "") with
    | none => rw [hw] at hwaves; simp at hwaves
    | some waves =>
    cases hc : parse_coin_value ((row.lookup "coins").getD "") with
    | error e => rw [hc] at hcoins; simp [Except.isOk, Except.toBool] at hcoins
    | ok cF =>
    cases hce : parse_cell_or_dice_value ((row.lookup "cells").getD "") with
    | error e => rw [hce] at hcells; simp [Except.isOk, Except.toBool] at hcells
    | ok ceF =>
    simp only [validate_row, hmiss, hd, ht, htime, hw, hc, hce]
    split
    · split
      · exact ⟨_, rfl⟩
      · simp
    · simp [finishRow]
  refine ⟨herr, fun pre post => ?_⟩
  obtain ⟨msg, hmsg⟩ := herr pre.length
  have happ := ingestLoop_append pre (row :: post) 0
  have hcons : ingestLoop pre.length (row :: post) =
      ((ingestLoop (pre.length + 1) post).1,
       ⟨pre.length, msg⟩ :: (ingestLoop (pre.length + 1) post).2) := by
    simp [ingestLoop, hmsg]
  constructor
  · rw [happ]; simp [hcons]
  · exact ⟨msg, by rw [happ]; simp [hcons]⟩

/-- c2Row is a row whose time field is exactly 0. -/
def c2Row : RawRow :=
  [("date", "2024-01-01"), ("tier", "1"), ("time", "0"), ("waves", "1"),
   ("coins", "1"), ("cells", "1")]

/-- c2Good is a well-formed companion row. -/
def c2Good : RawRow :=
  [("date", "2024-01-01"), ("tier", "1"), ("time", "1"), ("waves", "1"),
   ("coins", "1"), ("cells", "1")]

/-- claim C2 witness: the concrete zero-time row is rejected with a row error
while its neighbours in a batch are still processed. -/
theorem claim_C2_witness :
    (∃ msg, validate_row c2Row 5 = Except.error msg) ∧
    ((ingestLoop 0 ([c2Good] ++ c2Row :: [c2Good])).1 =
        (ingestLoop 0 [c2Good]).1 ++ (ingestLoop 2 [c2Good]).1 ∧
      ∃ msg, (ingestLoop 0 ([c2Good] ++ c2Row :: [c2Good])).2 =
        (ingestLoop 0 [c2Good]).2 ++ ⟨1, msg⟩ :: (ingestLoop 2 [c2Good]).2) := by
  exact ⟨(claim_C2 c2Row (by decide) (by decide) (by decide) (by decide) (by decide)
            (by decide) (by decide)).1 5,
         (claim_C2 c2Row (by decide) (by decide) (by decide) (by decide) (by decide)
            (by decide) (by decide)).2 [c2Good] [c2Good]⟩

/-! Declarative semantics of the duration pattern, and claim C4. -/

/-- groupRepr letter g part: part is the contribution of one optional group
`(?:(\d+)X)?` to a match, with g the captured value: nothing when the group
is absent, a nonempty digit run followed by the letter when present. -/
def groupRepr (letter : Char) (g : Option Nat) (part : List Char) : Prop :=
  match g with
  | none => part = []
  | some v =>
    ∃ ds, ds ≠ [] ∧ (∀ c ∈ ds, isDig c = true) ∧ part = ds ++ [letter] ∧ v = natOfDigits ds

/-- hmLang oh om cs: cs is in the language of `(?:(\d+)h)?(?:(\d+)m)?` as a
full match, with the given captured groups. -/
def hmLang (oh om : Option Nat) (cs : List Char) : Prop :=
  ∃ hs ms, cs = hs ++ ms ∧ groupRepr 'h' oh hs ∧ groupRepr 'm' om ms

/-- takeWhile_all_append computes takeWhile and dropWhile on a list of
satisfying elements followed by a non-satisfying one. -/
theorem takeWhile_all_append (p : Char → Bool) (ds : List Char) (x : Char) (r : List Char)
    (hds : ∀ c ∈ ds, p c = true) (hx : p x = false) :
    (ds ++ x :: r).takeWhile p = ds ∧ (ds ++ x :: r).dropWhile p = x :: r := by
  induction ds with
  | nil => simp [List.takeWhile_cons, List.dropWhile_cons, hx]
  | cons c ct ih =>
    have hc := hds c (by simp)
    have hr := ih (fun d hd => hds d (by simp [hd]))
    simp [List.takeWhile_cons, List.dropWhile_cons, hc, hr.1, hr.2]

/-- groupTake_some_iff: the parser takes the group with value v and
remainder r exactly when the input decomposes as a nonempty digit run of
value v, the letter, and r. -/
theorem groupTake_some_iff (letter : Char) (hlet : isDig letter = false)
    (cs r : List Char) (v : Nat) :
    groupTake letter cs = (some v, r) ↔
      ∃ ds, ds ≠ [] ∧ (∀ c ∈ ds, isDig c = true) ∧ cs = ds ++ letter :: r ∧
        v = natOfDigits ds := by
  constructor
  · intro h
    unfold groupTake at h
    by_cases hcond : cs.takeWhile isDig ≠ [] ∧ (cs.dropWhile isDig).head? = some letter
    · rw [if_pos hcond] at h
      obtain ⟨h1, h2⟩ := Prod.mk.injEq .. ▸ h
      cases hdw : cs.dropWhile isDig with
      | nil => rw [hdw] at hcond; simp at hcond
      | cons b bs =>
        have hb : b = letter := by
          have := hcond.2
          rw [hdw] at this
          simpa using this
        refine ⟨cs.takeWhile isDig, hcond.1, fun c hc => List.mem_takeWhile_imp hc, ?_, ?_⟩
        · have hcat := List.takeWhile_append_dropWhile (p := isDig) (l := cs)
          rw [hdw, hb] at hcat
          have hr : r = bs := by
            rw [hdw] at h2
            simpa using h2.symm
          rw [hr]
          exact hcat.symm
        · simpa using h1.symm
    · rw [if_neg hcond] at h
      simp at h
  · rintro ⟨ds, hne, hdig, rfl, rfl⟩
    have t := takeWhile_all_append isDig ds letter r hdig hlet
    unfold groupTake
    rw [if_pos (by rw [t.1, t.2]; exact ⟨hne, rfl⟩)]
    rw [t.1, t.2]
    rfl

/-- groupTake_none_snd: when the group is not taken the input is left
untouched. -/
theorem groupTake_none_snd (letter : Char) (cs r : List Char)
    (h : groupTake letter cs = (none, r)) : r = cs := by
  unfold groupTake at h
  by_cases hcond : cs.takeWhile isDig ≠ [] ∧ (cs.dropWhile isDig).head? = some letter
  · rw [if_pos hcond] at h; simp at h
  · rw [if_neg hcond] at h
    injection h with h1 h2
    exact h2.symm

/-- groupTake_none_of_shape: the h group is not taken on an input that is
empty or a digit run followed by the letter m. -/
theorem groupTake_none_of_shape (cs : List Char)
    (h : cs = [] ∨ ∃ es r, (∀ c ∈ es, isDig c = true) ∧ cs = es ++ 'm' :: r) :
    groupTake 'h' cs = (none, cs) := by
  rcases h with rfl | ⟨es, r, hdig, rfl⟩
  · simp [groupTake]
  · have t := takeWhile_all_append isDig es 'm' r hdig (by decide)
    unfold groupTake
    rw [if_neg]
    rw [t.2]
    simp

/-- hmMatch_iff: the deterministic matcher recognises exactly the language
of the regex `(?:(\d+)h)?(?:(\d+)m)?` as a full match, with the same
captured groups. -/
theorem hmMatch_iff (cs : List Char) (oh om : Option Nat) :
    hmMatch cs = some (oh, om) ↔ hmLang oh om cs := by
  constructor
  · intro h
    unfold hmMatch at h
    rcases hg1 : groupTake 'h' cs with ⟨g1, r1⟩
    rw [hg1] at h
    rcases hg2 : groupTake 'm' r1 with ⟨g2, r2⟩
    simp only at h
    rw [hg2] at h
    simp only at h
    by_cases hr2 : r2 = []
    · rw [if_pos hr2] at h
      obtain ⟨he1, he2⟩ : g1 = oh ∧ g2 = om := by
        have := h
        simp at this
        exact this
      subst he1 he2 hr2
      cases hg1v : g1 with
      | some v =>
        rw [hg1v] at hg1
        obtain ⟨ds, hne, hdig, hcs, hv⟩ := (groupTake_some_iff 'h' (by decide) cs r1 v).mp hg1
        cases hg2v : g2 with
        | some w =>
          rw [hg2v] at hg2
          obtain ⟨es, hne2, hdig2, hr1, hw⟩ := (groupTake_some_iff 'm' (by decide) r1 [] w).mp hg2
          refine ⟨ds ++ ['h'], es ++ ['m'], ?_, ?_, ?_⟩
          · rw [hcs, hr1]; simp
          · exact ⟨ds, hne, hdig, rfl, hv⟩
          · exact ⟨es, hne2, hdig2, rfl, hw⟩
        | none =>
          rw [hg2v] at hg2
          have := groupTake_none_snd 'm' r1 [] hg2
          refine ⟨ds ++ ['h'], [], ?_, ?_, rfl⟩
          · rw [hcs, ← this]; simp
          · exact ⟨ds, hne, hdig, rfl, hv⟩
      | none =>
        rw [hg1v] at hg1
        have hr1cs := groupTake_none_snd 'h' cs r1 hg1
        cases hg2v : g2 with
        | some w =>
          rw [hg2v] at hg2
          obtain ⟨es, hne2, hdig2, hr1, hw⟩ := (groupTake_some_iff 'm' (by decide) r1 [] w).mp hg2
          refine ⟨[], es ++ ['m'], ?_, rfl, ?_⟩
          · rw [← hr1cs, hr1]; simp
          · exact ⟨es, hne2, hdig2, rfl, hw⟩
        | none =>
          rw [hg2v] at hg2
          have := groupTake_none_snd 'm' r1 [] hg2
          exact ⟨[], [], by rw [← hr1cs, ← this]; simp, rfl, rfl⟩
    · rw [if_neg hr2] at h
      simp at h
  · rintro ⟨hs, ms, rfl, hh, hm⟩
    cases oh with
    | some v =>
      obtain ⟨ds, hne, hdig, rfl, rfl⟩ := hh
      cases om with
      | some w =>
        obtain ⟨es, hne2, hdig2, rfl, rfl⟩ := hm
        have hg1 : groupTake 'h' (ds ++ 'h' :: (es ++ ['m'])) =
            (some (natOfDigits ds), es ++ ['m']) := by
          rw [groupTake_some_iff 'h' (by decide)]
          exact ⟨ds, hne, hdig, rfl, rfl⟩
        have hg2 : groupTake 'm' (es ++ ['m']) = (some (natOfDigits es), []) := by
          rw [groupTake_some_iff 'm' (by decide)]
          exact ⟨es, hne2, hdig2, rfl, rfl⟩
        have hcs : (ds ++ ['h']) ++ (es ++ ['m']) = ds ++ 'h' :: (es ++ ['m']) := by simp
        rw [hcs]
        simp only [hmMatch, hg1, hg2]
        rfl
      | none =>
        rw [hm, List.append_nil]
        have hg1 : groupTake 'h' (ds ++ 'h' :: []) = (some (natOfDigits ds), []) := by
          rw [groupTake_some_iff 'h' (by decide)]
          exact ⟨ds, hne, hdig, rfl, rfl⟩
        have hg2 : groupTake 'm' ([] : List Char) = (none, []) := by decide
        simp only [hmMatch, hg1, hg2]
        rfl
    | none =>
      rw [hh, List.nil_append]
      cases om with
      | some w =>
        obtain ⟨es, hne2, hdig2, rfl, rfl⟩ := hm
        have hg1 : groupTake 'h' (es ++ ['m']) = (none, es ++ ['m']) :=
          groupTake_none_of_shape _ (Or.inr ⟨es, [], hdig2, rfl⟩)
        have hg2 : groupTake 'm' (es ++ ['m']) = (some (natOfDigits es), []) := by
          rw [groupTake_some_iff 'm' (by decide)]
          exact ⟨es, hne2, hdig2, rfl, rfl⟩
        simp only [hmMatch, hg1, hg2]
        rfl
      | none =>
        rw [hm]
        decide

/-- claim C4 (amended): parse_time returns a direct decimal unchanged;
otherwise an input in the pattern language yields hours + minutes/60 rounded
to 2 places with absent groups defaulting to 0; an input matching neither
form fails; but when both groups are absent (the value is empty after
stripping) the pattern still matches and the result is 0 rather than an
InvalidDuration failure. -/
theorem claim_C4 (value : String) :
    (∀ q, pyFloat value = some q → parse_time value = .ok q) ∧
    (∀ oh om, pyFloat value = none →
        hmLang oh om ((strip value.data).map Char.toLower) →
        parse_time value = .ok (round2 ((oh.getD 0 : Rat) + (om.getD 0 : Rat) / 60))) ∧
    (pyFloat value = none →
        (∀ oh om, ¬ hmLang oh om ((strip value.data).map Char.toLower)) →
        ∃ e, parse_time value = .error e) ∧
    parse_time "3h15m" = .ok (13 / 4) ∧
    parse_time "45m" = .ok (3 / 4) ∧
    parse_time "2.5" = .ok (5 / 2) ∧
    (∃ e, parse_time "bad" = .error e) ∧
    parse_time "" = .ok 0 := by
  refine ⟨fun q h => by simp [parse_time, h], fun oh om hf hl => ?_, fun hf hnl => ?_,
    by decide, by decide, by decide, ⟨"Invalid time format: bad", by decide⟩, by decide⟩
  · rw [parse_time, hf]
    rw [show (strip value.data |>.map Char.toLower) = (strip value.data).map Char.toLower from rfl]
    rw [(hmMatch_iff _ oh om).mpr hl]
  · rw [parse_time, hf]
    cases hm : hmMatch ((strip value.data).map Char.toLower) with
    | some p =>
      exact absurd ((hmMatch_iff _ p.1 p.2).mp (by rw [hm])) (hnl p.1 p.2)
    | none => exact ⟨_, rfl⟩

/-- claim C4 counterexample: the empty string is not a decimal, matches the
pattern with both groups absent, and parse_time returns 0 for it instead of
failing with InvalidDuration. -/
theorem claim_C4_counterexample :
    pyFloat "" = none ∧ parse_time "" = Except.ok 0 := by decide

/-- claim C4 witness: the theorem applied to concrete inputs for the direct
decimal branch and the pattern branch. -/
theorem claim_C4_witness :
    parse_time "2.5" = Except.ok (5 / 2) ∧
    parse_time "45m" = Except.ok (round2 ((0 : Rat) + (45 : Rat) / 60)) := by
  constructor
  · exact (claim_C4 "2.5").1 (5 / 2) (by decide)
  · exact (claim_C4 "45m").2.1 none (some 45) (by decide)
      ⟨[], ['4', '5', 'm'], by decide, rfl,
        ⟨['4', '5'], by decide, by decide, by decide, by decide⟩⟩

/-! Spec-side magnitude tables, and claim C5. -/

/-- coinTable is the spec's coin unit table of (suffix, scale) pairs. -/
def coinTable : List (Char × Nat) :=
  [('B', 1000000000), ('T', 1000000000000), ('q', 1000000000000000),
   ('Q', 1000000000000000000)]

/-- cellTable is the spec's cell/dice unit table. -/
def cellTable : List (Char × Nat) := [('K', 1000), ('M', 1000000)]

/-- numericPart is the numeric text consumed by the spec's
parseMagnitudeShorthand: the stripped value without its trailing letter when
that letter is a recognized suffix, the whole stripped value otherwise. -/
def numericPart (table : List (Char × Nat)) (v : List Char) : List Char :=
  match v.getLast? with
  | some c => if (table.lookup c).isSome then v.dropLast else v
  | none => v

/-- parseMagnitudeShorthand follows the spec's words (§4.1) as the refinement
mate of the source parsers: strip whitespace, multiply the numeric prefix by
the scale bound to the single trailing letter suffix in the given table
(default scale when the trailing letter is bound to nothing), convert to an
integer, and fail when the numeric prefix does not parse. -/
def parseMagnitudeShorthand (table : List (Char × Nat)) (dflt : Nat) (raw : String) :
    Except String Int :=
  let v := strip raw.data
  match v.getLast? with
  | some c =>
    match table.lookup c with
    | some scale => (scaleBy v.dropLast scale).map intTrunc
    | none => (scaleBy v dflt).map intTrunc
  | none => (scaleBy v dflt).map intTrunc

/-- scaleBy_fail: converting to an integer fails exactly when the numeric
text does not parse as a float. -/
theorem scaleBy_fail (cs : List Char) (m : Nat) :
    (((scaleBy cs m).map intTrunc).isOk = false) ↔ pyFloatL cs = none := by
  cases h : pyFloatL cs with
  | some q => simp [scaleBy, h, Except.map, Except.isOk, Except.toBool]
  | none => simp [scaleBy, h, Except.map, Except.isOk, Except.toBool]

/-- coin_magnitude_spec: the source's suffix chain agrees with the spec's
coin table with default scale 10^12, and fails exactly when the numeric
prefix does not parse. -/
theorem coin_magnitude_spec (raw : String) :
    coin_magnitude raw = parseMagnitudeShorthand coinTable 1000000000000 raw ∧
    ((coin_magnitude raw).isOk = false ↔
      pyFloatL (numericPart coinTable (strip raw.data)) = none) := by
  cases hgl : (strip raw.data).getLast? with
  | none =>
    constructor
    · simp [coin_magnitude, parse_coin_value, parseMagnitudeShorthand, hgl]
    · simp [coin_magnitude, parse_coin_value, numericPart, hgl, scaleBy_fail]
  | some c =>
    by_cases hq : c = 'q'
    · subst hq
      constructor
      · simp [coin_magnitude, parse_coin_value, parseMagnitudeShorthand, coinTable,
          List.lookup, hgl]
      · simp [coin_magnitude, parse_coin_value, numericPart, coinTable, List.lookup,
          hgl, scaleBy_fail]
    by_cases hQ : c = 'Q'
    · subst hQ
      constructor
      · simp [coin_magnitude, parse_coin_value, parseMagnitudeShorthand, coinTable,
          List.lookup, hgl]
      · simp [coin_magnitude, parse_coin_value, numericPart, coinTable, List.lookup,
          hgl, scaleBy_fail]
    by_cases hT : c = 'T'
    · subst hT
      constructor
      · simp [coin_magnitude, parse_coin_value, parseMagnitudeShorthand, coinTable,
          List.lookup, hgl]
      · simp [coin_magnitude, parse_coin_value, numericPart, coinTable, List.lookup,
          hgl, scaleBy_fail]
    by_cases hB : c = 'B'
    · subst hB
      constructor
      · simp [coin_magnitude, parse_coin_value, parseMagnitudeShorthand, coinTable,
          List.lookup, hgl]
      · simp [coin_magnitude, parse_coin_value, numericPart, coinTable, List.lookup,
          hgl, scaleBy_fail]
    · have bq : (c == 'q') = false := by simp [hq]
      have bQ : (c == 'Q') = false := by simp [hQ]
      have bT : (c == 'T') = false := by simp [hT]
      have bB : (c == 'B') = false := by simp [hB]
      constructor
      · simp [coin_magnitude, parse_coin_value, parseMagnitudeShorthand, coinTable,
          List.lookup, hgl, hq, hQ, hT, hB, bq, bQ, bT, bB]
      · simp [coin_magnitude, parse_coin_value, numericPart, coinTable, List.lookup,
          hgl, hq, hQ, hT, hB, bq, bQ, bT, bB, scaleBy_fail]

/-- cell_magnitude_spec: the source's suffix chain agrees with the spec's
cell/dice table with default scale 10^3, and fails exactly when the numeric
prefix does not parse. -/
theorem cell_magnitude_spec (raw : String) :
    cell_magnitude raw = parseMagnitudeShorthand cellTable 1000 raw ∧
    ((cell_magnitude raw).isOk = false ↔
      pyFloatL (numericPart cellTable (strip raw.data)) = none) := by
  cases hgl : (strip raw.data).getLast? with
  | none =>
    constructor
    · simp [cell_magnitude, parse_cell_or_dice_value, parseMagnitudeShorthand, hgl]
    · simp [cell_magnitude, parse_cell_or_dice_value, numericPart, hgl, scaleBy_fail]
  | some c =>
    by_cases hM : c = 'M'
    · subst hM
      constructor
      · simp [cell_magnitude, parse_cell_or_dice_value, parseMagnitudeShorthand,
          cellTable, List.lookup, hgl]
      · simp [cell_magnitude, parse_cell_or_dice_value, numericPart, cellTable,
          List.lookup, hgl, scaleBy_fail]
    by_cases hK : c = 'K'
    · subst hK
      constructor
      · simp [cell_magnitude, parse_cell_or_dice_value, parseMagnitudeShorthand,
          cellTable, List.lookup, hgl]
      · simp [cell_magnitude, parse_cell_or_dice_value, numericPart, cellTable,
          List.lookup, hgl, scaleBy_fail]
    · have bM : (c == 'M') = false := by simp [hM]
      have bK : (c == 'K') = false := by simp [hK]
      constructor
      · simp [cell_magnitude, parse_cell_or_dice_value, parseMagnitudeShorthand,
          cellTable, List.lookup, hgl, hM, hK, bM, bK]
      · simp [cell_magnitude, parse_cell_or_dice_value, numericPart, cellTable,
          List.lookup, hgl, hM, hK, bM, bK, scaleBy_fail]

/-- claim C5: the magnitude parsers strip whitespace, apply the suffix
scales of the coin table (default Trillion) and the cell/dice table (default
Thousand), convert to integer, satisfy the three spec examples, and fail
exactly when the numeric prefix does not parse. -/
theorem claim_C5 :
    (∀ raw, coin_magnitude raw = parseMagnitudeShorthand coinTable 1000000000000 raw) ∧
    (∀ raw, cell_magnitude raw = parseMagnitudeShorthand cellTable 1000 raw) ∧
    coin_magnitude "1.5T" = .ok 1500000000000 ∧
    cell_magnitude "250K" = .ok 250000 ∧
    coin_magnitude "500" = .ok (500 * 10 ^ 12) ∧
    (∀ raw, (coin_magnitude raw).isOk = false ↔
        pyFloatL (numericPart coinTable (strip raw.data)) = none) ∧
    (∀ raw, (cell_magnitude raw).isOk = false ↔
        pyFloatL (numericPart cellTable (strip raw.data)) = none) :=
  ⟨fun raw => (coin_magnitude_spec raw).1, fun raw => (cell_magnitude_spec raw).1,
   by decide, by decide, by decide,
   fun raw => (coin_magnitude_spec raw).2, fun raw => (cell_magnitude_spec raw).2⟩

/-- claim C5 witness: the table refinement and the failure rule evaluated at
concrete inputs. -/
theorem claim_C5_witness :
    coin_magnitude "2q" = parseMagnitudeShorthand coinTable 1000000000000 "2q" ∧
    (cell_magnitude "abc").isOk = false :=
  ⟨claim_C5.1 "2q", (claim_C5.2.2.2.2.2.2 "abc").mpr (by decide)⟩

/-! First-success characterisation of the format cascade, and claim C6. -/

/-- firstSome_some_iff: firstSome yields b exactly when some element maps to
b and every earlier element maps to none. -/
theorem firstSome_some_iff {α β : Type} (f : α → Option β) (l : List α) (b : β) :
    firstSome f l = some b ↔
      ∃ k x, l[k]? = some x ∧ f x = some b ∧ ∀ y ∈ l.take k, f y = none := by
  induction l with
  | nil => simp [firstSome]
  | cons a xs ih =>
    cases hx : f a with
    | some v =>
      simp only [firstSome, hx]
      constructor
      · intro h
        injection h with h
        subst h
        exact ⟨0, a, by simp, hx, by simp⟩
      · rintro ⟨k, x, hk, hfx, hmin⟩
        cases k with
        | zero =>
          have hxa : a = x := by simpa using hk
          subst hxa
          rw [hx] at hfx
          exact hfx
        | succ k0 =>
          have := hmin a (by simp [List.take_succ_cons])
          rw [hx] at this
          cases this
    | none =>
      simp only [firstSome, hx]
      rw [ih]
      constructor
      · rintro ⟨k, x, hk, hfx, hmin⟩
        refine ⟨k + 1, x, by simpa using hk, hfx, ?_⟩
        intro y hy
        rw [List.take_succ_cons] at hy
        rcases List.mem_cons.mp hy with rfl | hy2
        · exact hx
        · exact hmin y hy2
      · rintro ⟨k, x, hk, hfx, hmin⟩
        cases k with
        | zero =>
          have hxa : a = x := by simpa using hk
          subst hxa
          rw [hx] at hfx
          cases hfx
        | succ k0 =>
          exact ⟨k0, x, by simpa using hk, hfx,
            fun y hy => hmin y (by simp [List.take_succ_cons, hy])⟩

/-- firstSome_none_iff: firstSome fails exactly when every element maps to
none. -/
theorem firstSome_none_iff {α β : Type} (f : α → Option β) (l : List α) :
    firstSome f l = none ↔ ∀ a ∈ l, f a = none := by
  induction l with
  | nil => simp [firstSome]
  | cons a xs ih =>
    cases hx : f a with
    | some v => simp [firstSome, hx]
    | none => simp [firstSome, hx, ih]

/-- claim C6: parse_date strips surrounding whitespace and tries the six
formats in exactly the fixed priority order of KNOWN_DATE_FORMATS, returning
the first successful strptime, and fails with InvalidDate when none of the
six formats matches. -/
theorem claim_C6 (raw : String) :
    (∀ d, parse_date raw = .ok d ↔
      ∃ k fmt, KNOWN_DATE_FORMATS[k]? = some fmt ∧
        strptime fmt (strip raw.data) = some d ∧
        ∀ fmt2 ∈ KNOWN_DATE_FORMATS.take k, strptime fmt2 (strip raw.data) = none) ∧
    ((∀ fmt ∈ KNOWN_DATE_FORMATS, strptime fmt (strip raw.data) = none) →
      ∃ e, parse_date raw = .error e) := by
  constructor
  · intro d
    have key : parse_date raw = .ok d ↔
        firstSome (fun fmt => strptime fmt (strip raw.data)) KNOWN_DATE_FORMATS = some d := by
      unfold parse_date
      cases h : firstSome (fun fmt => strptime fmt (strip raw.data)) KNOWN_DATE_FORMATS with
      | some x => simp [h]
      | none => simp [h]
    rw [key, firstSome_some_iff]
  · intro h
    unfold parse_date
    rw [(firstSome_none_iff _ _).mpr h]
    exact ⟨_, rfl⟩

/-- claim C6 witness: the ambiguous input 01-02-03 fails the first four
formats (4-digit year required) and resolves under the fifth, MM-DD-YY, to
2003-01-02; and a nonsense input fails all six formats. -/
theorem claim_C6_witness :
    parse_date "01-02-03" = Except.ok ⟨2003, 1, 2⟩ ∧
    ∃ e, parse_date "bad" = Except.error e :=
  ⟨((claim_C6 "01-02-03").1 ⟨2003, 1, 2⟩).mpr
      ⟨4, .mdy '-', by decide, by decide, by decide⟩,
   (claim_C6 "bad").2 (by decide)⟩

/-! Dict lemmas and the shape of a successfully validated record. -/

/-- lookup_setKV_self: reading back the key just assigned. -/
theorem lookup_setKV_self (k : String) (v : JVal) (r : Row) :
    (setKV k v r).lookup k = some v := by
  induction r with
  | nil => simp [setKV, List.lookup]
  | cons p rest ih =>
    obtain ⟨k0, v0⟩ := p
    by_cases h : k0 = k
    · simp [setKV, h, List.lookup]
    · have hb : (k == k0) = false := by
        simp [beq_eq_false_iff_ne, Ne.symm h]
      simp [setKV, h, List.lookup, hb, ih]

/-- lookup_setKV_ne: assigning one key leaves the others unchanged. -/
theorem lookup_setKV_ne (k : String) (v : JVal) (r : Row) (k' : String) (h : k' ≠ k) :
    (setKV k v r).lookup k' = r.lookup k' := by
  have hb : (k' == k) = false := by simp [beq_eq_false_iff_ne, h]
  induction r with
  | nil => simp [setKV, List.lookup, hb]
  | cons p rest ih =>
    obtain ⟨k0, v0⟩ := p
    by_cases h0 : k0 = k
    · subst h0
      simp [setKV, List.lookup, hb]
    · by_cases h1 : k0 = k'
      · subst h1
        simp [setKV, h0, List.lookup]
      · have hb1 : (k' == k0) = false := by
          simp [beq_eq_false_iff_ne, Ne.symm h1]
        simp [setKV, h0, List.lookup, hb1, ih]

/-- keysOf_setKV: assignment keeps the key order, appending a fresh key at
the end. -/
theorem keysOf_setKV (k : String) (v : JVal) (r : Row) :
    keysOf (setKV k v r) = if k ∈ keysOf r then keysOf r else keysOf r ++ [k] := by
  induction r with
  | nil => simp [setKV, keysOf]
  | cons p rest ih =>
    obtain ⟨k0, v0⟩ := p
    by_cases h : k0 = k
    · simp [setKV, h, keysOf]
    · simp only [setKV, if_neg h, keysOf, List.map_cons]
      rw [show keysOf (setKV k v rest) = List.map Prod.fst (setKV k v rest) from rfl] at ih
      rw [ih]
      by_cases hm : k ∈ List.map Prod.fst rest
      · simp [hm, Ne.symm h, keysOf]
      · simp [hm, Ne.symm h, keysOf]

/-- validate_row_ok_dest: a successful validation determines the parses of
every field, a nonzero time, and the exact shape of the produced record. -/
theorem validate_row_ok_dest (row : RawRow) (idx : Nat) (rec : Row)
    (h : validate_row row idx = .ok rec) :
    ∃ dt tier t waves cF ceF,
      parse_date ((row.lookup "date").getD "") = .ok dt ∧
      pyInt ((row.lookup "tier").getD "") = some tier ∧
      parse_time ((row.lookup "time").getD "") = .ok t ∧
      pyInt ((row.lookup "waves").getD "") = some waves ∧
      parse_coin_value ((row.lookup "coins").getD "") = .ok cF ∧
      parse_cell_or_dice_value ((row.lookup "cells").getD "") = .ok ceF ∧
      t ≠ 0 ∧
      ((stripS ((row.lookup "rerolldice").getD "") = "" ∧
        rec = finishFields t (intTrunc cF) (intTrunc ceF) ((row.lookup "run_type").getD "")
          (withReroll (.i 0) (.q 0)
            (recCore row dt tier t waves (intTrunc cF) (intTrunc ceF)))) ∨
       (stripS ((row.lookup "rerolldice").getD "") ≠ "" ∧
        ∃ rrF, parse_cell_or_dice_value (stripS ((row.lookup "rerolldice").getD "")) = .ok rrF ∧
          rec = finishFields t (intTrunc cF) (intTrunc ceF) ((row.lookup "run_type").getD "")
            (withReroll (.i (intTrunc rrF)) (.i (intTrunc ((intTrunc rrF : Rat) / t)))
              (recCore row dt tier t waves (intTrunc cF) (intTrunc ceF))))) := by
  unfold validate_row at h
  cases hm : missingField row with
  | some f => rw [hm] at h; cases h
  | none =>
  rw [hm] at h
  cases hd : parse_date ((row.lookup "date").getD "") with
  | error e => rw [hd] at h; cases h
  | ok dt =>
  rw [hd] at h
  cases ht : pyInt ((row.lookup "tier").getD "") with
  | none => rw [ht] at h; cases h
  | some tier =>
  rw [ht] at h
  cases htm : parse_time ((row.lookup "time").getD "") with
  | error e => rw [htm] at h; cases h
  | ok t =>
  rw [htm] at h
  cases hw : pyInt ((row.lookup "waves").getD "") with
  | none => rw [hw] at h; cases h
  | some waves =>
  rw [hw] at h
  cases hc : parse_coin_value ((row.lookup "coins").getD "") with
  | error e => rw [hc] at h; cases h
  | ok cF =>
  rw [hc] at h
  cases hce : parse_cell_or_dice_value ((row.lookup "cells").getD "") with
  | error e => rw [hce] at h; cases h
  | ok ceF =>
  rw [hce] at h
  dsimp only at h
  refine ⟨dt, tier, t, waves, cF, ceF, rfl, rfl, rfl, rfl, rfl, rfl, ?_⟩
  by_cases hrr : stripS ((row.lookup "rerolldice").getD "") ≠ ""
  · rw [if_pos hrr] at h
    cases hrf : parse_cell_or_dice_value (stripS ((row.lookup "rerolldice").getD "")) with
    | error e => rw [hrf] at h; cases h
    | ok rrF =>
    rw [hrf] at h
    dsimp only at h
    by_cases ht0 : t = 0
    · rw [if_pos ht0] at h; cases h
    · rw [if_neg ht0] at h
      unfold finishRow at h
      rw [if_neg ht0] at h
      injection h with h
      exact ⟨ht0, Or.inr ⟨hrr, rrF, rfl, h.symm⟩⟩
  · rw [if_neg hrr] at h
    unfold finishRow at h
    by_cases ht0 : t = 0
    · rw [if_pos ht0] at h; cases h
    · rw [if_neg ht0] at h
      injection h with h
      exact ⟨ht0, Or.inl ⟨by simpa using hrr, h.symm⟩⟩

/-- okLookup reads a field of the record produced by a successful
validation. -/
def okLookup (e : Except String Row) (k : String) : Option JVal :=
  match e with
  | .ok r => r.lookup k
  | .error _ => none

/-- claim C8 (amended): every accepted row has coins_per_hour and
cells_per_hour equal to the quotient by time truncated toward zero;
rerolldice defaults to 0 with rerolldice_per_hour 0.0 when the optional field
is absent or blank, and a present rerolldice yields rerolldice_per_hour
under the same truncation. -/
theorem claim_C8 (row : RawRow) (idx : Nat)
    (h : (validate_row row idx).isOk = true) :
    ∃ t cF ceF,
      parse_time ((row.lookup "time").getD "") = .ok t ∧
      parse_coin_value ((row.lookup "coins").getD "") = .ok cF ∧
      parse_cell_or_dice_value ((row.lookup "cells").getD "") = .ok ceF ∧
      okLookup (validate_row row idx) "coins" = some (.i (intTrunc cF)) ∧
      okLookup (validate_row row idx) "cells" = some (.i (intTrunc ceF)) ∧
      okLookup (validate_row row idx) "coins_per_hour" =
        some (.i (intTrunc ((intTrunc cF : Rat) / t))) ∧
      okLookup (validate_row row idx) "cells_per_hour" =
        some (.i (intTrunc ((intTrunc ceF : Rat) / t))) ∧
      (stripS ((row.lookup "rerolldice").getD "") = "" →
        okLookup (validate_row row idx) "rerolldice" = some (.i 0) ∧
        okLookup (validate_row row idx) "rerolldice_per_hour" = some (.q 0)) ∧
      (∀ rrF, stripS ((row.lookup "rerolldice").getD "") ≠ "" →
        parse_cell_or_dice_value (stripS ((row.lookup "rerolldice").getD "")) = .ok rrF →
        okLookup (validate_row row idx) "rerolldice" = some (.i (intTrunc rrF)) ∧
        okLookup (validate_row row idx) "rerolldice_per_hour" =
          some (.i (intTrunc ((intTrunc rrF : Rat) / t)))) := by
  cases hv : validate_row row idx with
  | error e => rw [hv] at h; simp [Except.isOk, Except.toBool] at h
  | ok rec =>
  obtain ⟨dt, tier, t, waves, cF, ceF, hd, ht, htm, hw, hc, hce, ht0, hbr⟩ :=
    validate_row_ok_dest row idx rec hv
  refine ⟨t, cF, ceF, htm, hc, hce, ?_⟩
  rcases hbr with ⟨hblank, hrec⟩ | ⟨hnb, rrF, hrf, hrec⟩
  · subst hrec
    refine ⟨?_, ?_, ?_, ?_, fun _ => ⟨?_, ?_⟩, fun rrF hne _ => absurd hblank hne⟩ <;>
      simp [okLookup, finishFields, withReroll, recCore,
        lookup_setKV_self, lookup_setKV_ne]
  · subst hrec
    refine ⟨?_, ?_, ?_, ?_, fun hb => absurd hb hnb, fun rrF2 hne hp2 => ?_⟩
    · simp [okLookup, finishFields, withReroll, recCore,
        lookup_setKV_self, lookup_setKV_ne]
    · simp [okLookup, finishFields, withReroll, recCore,
        lookup_setKV_self, lookup_setKV_ne]
    · simp [okLookup, finishFields, withReroll, recCore,
        lookup_setKV_self, lookup_setKV_ne]
    · simp [okLookup, finishFields, withReroll, recCore,
        lookup_setKV_self, lookup_setKV_ne]
    · have hr2 : rrF2 = rrF := by
        rw [hrf] at hp2
        injection hp2 with hp2
        exact hp2.symm
      subst hr2
      constructor <;>
        simp [okLookup, finishFields, withReroll, recCore,
          lookup_setKV_self, lookup_setKV_ne]

/-- c8Row is a row with a 1K rerolldice over 3 hours: 1000/3 is not an
integer, so the stored rate cannot equal the exact quotient. -/
def c8Row : RawRow :=
  [("date", "2024-01-01"), ("tier", "1"), ("time", "3"), ("waves", "2"),
   ("coins", "1"), ("cells", "1"), ("rerolldice", "1K")]

/-- claim C8 counterexample: the row stores rerolldice 1000, time 3, and
rerolldice_per_hour 333, yet 333 differs from the exact quotient 1000/3, so
rerolldice_per_hour is truncated, not the exact value the claim states. -/
theorem claim_C8_counterexample :
    okLookup (validate_row c8Row 0) "rerolldice" = some (JVal.i 1000) ∧
    okLookup (validate_row c8Row 0) "time" = some (JVal.q 3) ∧
    okLookup (validate_row c8Row 0) "rerolldice_per_hour" = some (JVal.i 333) ∧
    (333 : Rat) ≠ (1000 : Rat) / 3 := by decide

/-- claim C8 witness: the theorem applied to the concrete reroll row. -/
theorem claim_C8_witness :
    ∃ t cF ceF,
      parse_time ((c8Row.lookup "time").getD "") = .ok t ∧
      parse_coin_value ((c8Row.lookup "coins").getD "") = .ok cF ∧
      parse_cell_or_dice_value ((c8Row.lookup "cells").getD "") = .ok ceF ∧
      okLookup (validate_row c8Row 0) "coins" = some (.i (intTrunc cF)) ∧
      okLookup (validate_row c8Row 0) "cells" = some (.i (intTrunc ceF)) ∧
      okLookup (validate_row c8Row 0) "coins_per_hour" =
        some (.i (intTrunc ((intTrunc cF : Rat) / t))) ∧
      okLookup (validate_row c8Row 0) "cells_per_hour" =
        some (.i (intTrunc ((intTrunc ceF : Rat) / t))) ∧
      (stripS ((c8Row.lookup "rerolldice").getD "") = "" →
        okLookup (validate_row c8Row 0) "rerolldice" = some (.i 0) ∧
        okLookup (validate_row c8Row 0) "rerolldice_per_hour" = some (.q 0)) ∧
      (∀ rrF, stripS ((c8Row.lookup "rerolldice").getD "") ≠ "" →
        parse_cell_or_dice_value (stripS ((c8Row.lookup "rerolldice").getD "")) = .ok rrF →
        okLookup (validate_row c8Row 0) "rerolldice" = some (.i (intTrunc rrF)) ∧
        okLookup (validate_row c8Row 0) "rerolldice_per_hour" =
          some (.i (intTrunc ((intTrunc rrF : Rat) / t)))) :=
  claim_C8 c8Row 0 (by decide)

/-- intTrunc_nonpos: truncation toward zero is nonpositive on nonpositive
values. -/
theorem intTrunc_nonpos (q : Rat) (h : q ≤ 0) : intTrunc q ≤ 0 := by
  have hnum : q.num ≤ 0 := Rat.num_nonpos.mpr h
  have hden : (0 : Int) ≤ (q.den : Int) := Int.ofNat_nonneg _
  have h1 : 0 ≤ (-q.num).tdiv (q.den : Int) := Int.tdiv_nonneg (by omega) hden
  have h2 : (-q.num).tdiv (q.den : Int) = -(q.num.tdiv (q.den : Int)) :=
    Int.neg_tdiv q.num (q.den : Int)
  unfold intTrunc
  omega

/-- intTrunc_nonneg: truncation toward zero is nonnegative on nonnegative
values. -/
theorem intTrunc_nonneg (q : Rat) (h : 0 ≤ q) : 0 ≤ intTrunc q :=
  Int.tdiv_nonneg (Rat.num_nonneg.mpr h) (Int.ofNat_nonneg _)

/-- claim C10 (amended): a row whose mandatory fields parse, whose optional
rerolldice is absent, blank or parseable, and whose time parses to any
nonzero value (negative included) is accepted; the rates are the quotients
truncated toward zero, hence nonpositive (not necessarily negative) for
nonnegative coin and cell values when time is negative.  The validator
rejects a row for its time value only when time is exactly 0. -/
theorem claim_C10 (row : RawRow) (idx : Nat) (t cF ceF : Rat)
    (hmiss : missingField row = none)
    (hdate : (parse_date ((row.lookup "date").getD "")).isOk = true)
    (htier : (pyInt ((row.lookup "tier").getD "")).isSome = true)
    (htime : parse_time ((row.lookup "time").getD "") = .ok t)
    (hwaves : (pyInt ((row.lookup "waves").getD "")).isSome = true)
    (hcoins : parse_coin_value ((row.lookup "coins").getD "") = .ok cF)
    (hcells : parse_cell_or_dice_value ((row.lookup "cells").getD "") = .ok ceF)
    (hrr : stripS ((row.lookup "rerolldice").getD "") = "" ∨
      (parse_cell_or_dice_value (stripS ((row.lookup "rerolldice").getD ""))).isOk = true)
    (ht0 : t ≠ 0) :
    (validate_row row idx).isOk = true ∧
    okLookup (validate_row row idx) "time" = some (.q t) ∧
    okLookup (validate_row row idx) "coins_per_hour" =
      some (.i (intTrunc ((intTrunc cF : Rat) / t))) ∧
    okLookup (validate_row row idx) "cells_per_hour" =
      some (.i (intTrunc ((intTrunc ceF : Rat) / t))) ∧
    (t < 0 → 0 ≤ cF → intTrunc ((intTrunc cF : Rat) / t) ≤ 0) ∧
    (t < 0 → 0 ≤ ceF → intTrunc ((intTrunc ceF : Rat) / t) ≤ 0) := by
  have hsign : ∀ q : Rat, t < 0 → 0 ≤ q → intTrunc ((intTrunc q : Rat) / t) ≤ 0 := by
    intro q htneg hq
    apply intTrunc_nonpos
    apply div_nonpos_of_nonneg_of_nonpos _ htneg.le
    exact_mod_cast intTrunc_nonneg q hq
  have hok : (validate_row row idx).isOk = true ∧
      okLookup (validate_row row idx) "time" = some (.q t) ∧
      okLookup (validate_row row idx) "coins_per_hour" =
        some (.i (intTrunc ((intTrunc cF : Rat) / t))) ∧
      okLookup (validate_row row idx) "cells_per_hour" =
        some (.i (intTrunc ((intTrunc ceF : Rat) / t))) := by
    cases hd : parse_date ((row.lookup "date").getD "") with
    | error e => rw [hd] at hdate; simp [Except.isOk, Except.toBool] at hdate
    | ok dt =>
    cases hti : pyInt ((row.lookup "tier").getD "") with
    | none => rw [hti] at htier; simp at htier
    | some tier =>
    cases hw : pyInt ((row.lookup "waves").getD "") with
    | none => rw [hw] at hwaves; simp at hwaves
    | some waves =>
    have hrun : validate_row row idx =
        (if stripS ((row.lookup "rerolldice").getD "") ≠ "" then
          match parse_cell_or_dice_value (stripS ((row.lookup "rerolldice").getD "")) with
          | .error e => .error (rowErr idx e)
          | .ok rrF =>
            if t = 0 then .error (rowErr idx "float division by zero")
            else
              finishRow idx t (intTrunc cF) (intTrunc ceF) ((row.lookup "run_type").getD "")
                (withReroll (.i (intTrunc rrF)) (.i (intTrunc ((intTrunc rrF : Rat) / t)))
                  (recCore row dt tier t waves (intTrunc cF) (intTrunc ceF)))
        else
          finishRow idx t (intTrunc cF) (intTrunc ceF) ((row.lookup "run_type").getD "")
            (withReroll (.i 0) (.q 0)
              (recCore row dt tier t waves (intTrunc cF) (intTrunc ceF)))) := by
      unfold validate_row
      rw [hmiss, hd, hti, htime, hw, hcoins, hcells]
    rw [hrun]
    by_cases hb : stripS ((row.lookup "rerolldice").getD "") = ""
    · rw [if_neg (by simpa using hb)]
      unfold finishRow
      rw [if_neg ht0]
      refine ⟨rfl, ?_, ?_, ?_⟩ <;>
        simp [okLookup, finishFields, withReroll, recCore,
          lookup_setKV_self, lookup_setKV_ne]
    · rw [if_pos hb]
      rcases hrr with hrr | hrr
      · exact absurd hrr hb
      cases hrf : parse_cell_or_dice_value (stripS ((row.lookup "rerolldice").getD "")) with
      | error e => rw [hrf] at hrr; simp [Except.isOk, Except.toBool] at hrr
      | ok rrF =>
      dsimp only
      rw [if_neg ht0]
      unfold finishRow
      rw [if_neg ht0]
      refine ⟨rfl, ?_, ?_, ?_⟩ <;>
        simp [okLookup, finishFields, withReroll, recCore,
          lookup_setKV_self, lookup_setKV_ne]
  exact ⟨hok.1, hok.2.1, hok.2.2.1, hok.2.2.2, hsign cF, hsign ceF⟩

/-- c10Row is a row with time -2 and zero coins and cells. -/
def c10Row : RawRow :=
  [("date", "2024-01-01"), ("tier", "1"), ("time", "-2"), ("waves", "10"),
   ("coins", "0"), ("cells", "0")]

/-- c10RowB is a row with time -2 and an unparseable rerolldice. -/
def c10RowB : RawRow :=
  [("date", "2024-01-01"), ("tier", "1"), ("time", "-2"), ("waves", "10"),
   ("coins", "1"), ("cells", "1"), ("rerolldice", "zzz")]

/-- claim C10 counterexample: with time -2 and coins 0 the row is accepted
but its coins_per_hour is 0, which is not negative, contradicting the
claim's 'rates are negative'; moreover a row with negative time and a
present but unparseable rerolldice is rejected even though all mandatory
fields parse. -/
theorem claim_C10_counterexample :
    (validate_row c10Row 0).isOk = true ∧
    okLookup (validate_row c10Row 0) "time" = some (JVal.q (-2)) ∧
    okLookup (validate_row c10Row 0) "coins_per_hour" = some (JVal.i 0) ∧
    ¬((0 : Int) < 0) ∧
    (validate_row c10RowB 0).isOk = false := by decide

/-- c10wRow is a row with time -2 and 3T coins. -/
def c10wRow : RawRow :=
  [("date", "2024-01-01"), ("tier", "1"), ("time", "-2"), ("waves", "10"),
   ("coins", "3T"), ("cells", "4K")]

/-- claim C10 witness: the theorem applied to the 3T-coins, time -2 row. -/
theorem claim_C10_witness :
    (validate_row c10wRow 0).isOk = true ∧
    okLookup (validate_row c10wRow 0) "time" = some (.q (-2)) ∧
    okLookup (validate_row c10wRow 0) "coins_per_hour" =
      some (.i (intTrunc ((intTrunc 3000000000000 : Rat) / (-2)))) ∧
    okLookup (validate_row c10wRow 0) "cells_per_hour" =
      some (.i (intTrunc ((intTrunc 4000 : Rat) / (-2)))) ∧
    ((-2 : Rat) < 0 → (0 : Rat) ≤ 3000000000000 →
      intTrunc ((intTrunc (3000000000000 : Rat) : Rat) / (-2)) ≤ 0) ∧
    ((-2 : Rat) < 0 → (0 : Rat) ≤ 4000 →
      intTrunc ((intTrunc (4000 : Rat) : Rat) / (-2)) ≤ 0) :=
  claim_C10 c10wRow 0 (-2) 3000000000000 4000 (by decide) (by decide) (by decide)
    (by decide) (by decide) (by decide) (by decide) (Or.inl (by decide)) (by decide)

/-! Output record field names, and claim C7. -/

/-- OPTIONAL_FIELDS models the constant at src/runlog_ingest.py line 15. -/
def OPTIONAL_FIELDS : List String := ["run_type", "comments", "rerolldice"]

/-- stdHeader is the full CSV header: mandatory columns then optional
columns, per the input format of §6. -/
def stdHeader : List String := MANDATORY_FIELDS ++ OPTIONAL_FIELDS

/-- specCanonicalFields lists the CanonicalRun fields of the spec's §3
table, in table order, as the refinement mate for the claim about output
field names. -/
def specCanonicalFields : List String :=
  ["date", "epoch", "tier", "time", "waves", "coins", "cells", "rerolldice",
   "rerolldice_per_hour", "run_type", "coins_per_hour", "cells_per_hour"]

/-- enumFrom_mem_snd: the payload of an enumerated element belongs to the
original list. -/
theorem enumFrom_mem_snd {α : Type} (n : Nat) (l : List α) (p : Nat × α)
    (h : p ∈ List.enumFrom n l) : p.2 ∈ l := by
  induction l generalizing n with
  | nil => simp [List.enumFrom] at h
  | cons a as ih =>
    rw [List.enumFrom_cons] at h
    rcases List.mem_cons.mp h with rfl | h2
    · simp
    · exact List.mem_cons_of_mem _ (ih (n + 1) h2)

/-- keysOf_validated: a record built from a standard-header row carries the
header keys in order followed by the four appended derived keys. -/
theorem keysOf_validated (row : RawRow) (dt : PyDate) (tier : Int) (t : Rat)
    (waves coins cells : Int) (rr rrph : JVal) (rt : String)
    (hk : row.map Prod.fst = stdHeader) :
    keysOf (finishFields t coins cells rt
        (withReroll rr rrph (recCore row dt tier t waves coins cells))) =
      stdHeader ++ ["epoch", "rerolldice_per_hour", "coins_per_hour", "cells_per_hour"] := by
  have hbase : keysOf (row.map (fun p => (p.1, JVal.s p.2))) = stdHeader := by
    show List.map Prod.fst (row.map (fun p => (p.1, JVal.s p.2))) = stdHeader
    rw [List.map_map]
    exact hk
  simp [finishFields, withReroll, recCore, keysOf_setKV, hbase, stdHeader,
    MANDATORY_FIELDS, OPTIONAL_FIELDS]

/-- claim C7 (amended): after a successful ingest over standard-header rows
the store holds the records as an indented JSON array, and each record's
field names are the input columns (including pass-through columns such as
comments) in order, followed by the derived fields epoch,
rerolldice_per_hour, coins_per_hour and cells_per_hour. -/
theorem claim_C7 (rows : List RawRow) (fs : FS)
    (hk : ∀ r ∈ rows, r.map Prod.fst = stdHeader)
    (hne : (ingestLoop 0 rows).1 ≠ []) :
    (mainModel (some rows) fs).1.store = some (jsonDump (ingestLoop 0 rows).1) ∧
    ∀ rec ∈ (ingestLoop 0 rows).1,
      keysOf rec =
        stdHeader ++ ["epoch", "rerolldice_per_hour", "coins_per_hour", "cells_per_hour"] := by
  constructor
  · simp only [mainModel]
    rw [if_neg hne]
  · intro rec hr
    rw [ingestLoop_eq] at hr
    obtain ⟨p, hp, hv⟩ := List.mem_filterMap.mp hr
    have hrow : p.2 ∈ rows := enumFrom_mem_snd 0 rows p hp
    have hvv : validate_row p.2 p.1 = .ok rec := by
      cases hx : validate_row p.2 p.1 with
      | error e => rw [hx] at hv; simp [Except.toOption] at hv
      | ok v =>
        rw [hx] at hv
        simp [Except.toOption] at hv
        rw [hv]
    obtain ⟨dt, tier, t, waves, cF, ceF, _, _, _, _, _, _, _, hbr⟩ :=
      validate_row_ok_dest p.2 p.1 rec hvv
    rcases hbr with ⟨_, hrec⟩ | ⟨_, rrF, _, hrec⟩ <;> subst hrec <;>
      exact keysOf_validated p.2 dt tier t waves _ _ _ _ _ (hk p.2 hrow)

/-- c7Rows is a one-row batch whose header includes the pass-through
comments column. -/
def c7Rows : List RawRow :=
  [[("date", "2024-01-01"), ("tier", "1"), ("time", "2"), ("waves", "3"),
    ("coins", "1"), ("cells", "1"), ("run_type", ""), ("comments", "note to self"),
    ("rerolldice", "")]]

set_option maxRecDepth 4000 in
/-- claim C7 counterexample: the written record keeps the comments column,
which is not one of §3's CanonicalRun fields, so the store objects do not
have exactly the table's field names. -/
theorem claim_C7_counterexample :
    (mainModel (some c7Rows) ⟨none, none⟩).1.store = some (jsonDump (ingestLoop 0 c7Rows).1) ∧
    (ingestLoop 0 c7Rows).1.length = 1 ∧
    ∀ rec ∈ (ingestLoop 0 c7Rows).1,
      "comments" ∈ keysOf rec ∧ "comments" ∉ specCanonicalFields ∧
        keysOf rec ≠ specCanonicalFields := by decide

/-- claim C7 witness: the theorem applied to the concrete one-row batch. -/
theorem claim_C7_witness :
    (mainModel (some c7Rows) ⟨none, none⟩).1.store = some (jsonDump (ingestLoop 0 c7Rows).1) ∧
    ∀ rec ∈ (ingestLoop 0 c7Rows).1,
      keysOf rec =
        stdHeader ++ ["epoch", "rerolldice_per_hour", "coins_per_hour", "cells_per_hour"] :=
  claim_C7 c7Rows ⟨none, none⟩ (by decide) (by decide)

/-! Properties of the close-match selection, and claim C9. -/

/-- bestScored_mem: a selected pair is a scored member of the candidate
list. -/
theorem bestScored_mem (w : List Char) (l : List String) (p : Rat × String)
    (h : bestScored w l = some p) : p.2 ∈ l ∧ p.1 = similarity p.2.data w := by
  induction l generalizing p with
  | nil => cases h
  | cons x xs ih =>
    unfold bestScored at h
    cases hb : bestScored w xs with
    | none =>
      rw [hb] at h
      dsimp only at h
      injection h with h
      subst h
      exact ⟨List.mem_cons_self x xs, rfl⟩
    | some q0 =>
      rw [hb] at h
      dsimp only at h
      obtain ⟨hq0m, hq0s⟩ := ih q0 hb
      by_cases hcmp : similarity x.data w > q0.1 ∨
          (similarity x.data w = q0.1 ∧ lexLt q0.2.data x.data)
      · rw [if_pos (by simpa using hcmp)] at h
        injection h with h
        subst h
        exact ⟨List.mem_cons_self x xs, rfl⟩
      · rw [if_neg (by simpa using hcmp)] at h
        injection h with h
        subst h
        exact ⟨List.mem_cons_of_mem x hq0m, hq0s⟩

/-- bestScored_none_iff: selection fails only on the empty candidate list. -/
theorem bestScored_none_iff (w : List Char) (l : List String) :
    bestScored w l = none ↔ l = [] := by
  cases l with
  | nil => simp [bestScored]
  | cons x xs =>
    simp only [bestScored]
    cases hb : bestScored w xs with
    | none => simp
    | some q0 =>
      dsimp only
      split <;> simp

/-- bestScored_max_sim: the selected pair carries a maximal similarity among
the candidates. -/
theorem bestScored_max_sim (w : List Char) (l : List String) (p : Rat × String)
    (h : bestScored w l = some p) :
    ∀ x ∈ l, similarity x.data w ≤ p.1 := by
  induction l generalizing p with
  | nil => cases h
  | cons x xs ih =>
    unfold bestScored at h
    cases hb : bestScored w xs with
    | none =>
      rw [hb] at h
      dsimp only at h
      injection h with h
      subst h
      intro y hy
      rcases List.mem_cons.mp hy with rfl | hy2
      · exact le_refl _
      · rw [(bestScored_none_iff w xs).mp hb] at hy2
        cases hy2
    | some q0 =>
      rw [hb] at h
      dsimp only at h
      by_cases hcmp : similarity x.data w > q0.1 ∨
          (similarity x.data w = q0.1 ∧ lexLt q0.2.data x.data)
      · rw [if_pos (by simpa using hcmp)] at h
        injection h with h
        subst h
        intro y hy
        rcases List.mem_cons.mp hy with rfl | hy2
        · exact le_refl _
        · have hle := ih q0 hb y hy2
          rcases hcmp with hgt | ⟨heq, _⟩
          · exact le_trans hle (le_of_lt hgt)
          · exact le_trans hle (le_of_eq heq.symm)
      · rw [if_neg (by simpa using hcmp)] at h
        injection h with h
        subst h
        intro y hy
        rcases List.mem_cons.mp hy with rfl | hy2
        · push_neg at hcmp
          exact le_of_not_lt (fun hlt => absurd hlt (by simpa using hcmp.1))
        · exact ih q0 hb y hy2

/-- gcm_some: a successful close match is a candidate at or above the
cutoff, with maximal similarity among such candidates. -/
theorem gcm_some (word : String) (poss : List String) (cutoff : Rat) (m : String)
    (h : get_close_match1 word poss cutoff = some m) :
    m ∈ poss ∧ cutoff ≤ similarity m.data word.data ∧
    ∀ l ∈ poss, similarity l.data word.data ≤ similarity m.data word.data := by
  unfold get_close_match1 at h
  cases hb : bestScored word.data
      (poss.filter (fun x => similarity x.data word.data ≥ cutoff)) with
  | none => rw [hb] at h; cases h
  | some p =>
    rw [hb] at h
    injection h with h
    subst h
    obtain ⟨hmem, hsim⟩ := bestScored_mem _ _ _ hb
    have hmax := bestScored_max_sim _ _ _ hb
    obtain ⟨hposs, hcut⟩ := List.mem_filter.mp hmem
    refine ⟨hposs, by simpa using hcut, fun l hl => ?_⟩
    by_cases hc : cutoff ≤ similarity l.data word.data
    · have := hmax l (List.mem_filter.mpr ⟨hl, by simpa using hc⟩)
      rw [hsim] at this
      exact this
    · have h1 : similarity l.data word.data < cutoff := lt_of_not_le hc
      have h2 : cutoff ≤ similarity p.2.data word.data := by simpa using hcut
      exact le_of_lt (lt_of_lt_of_le h1 h2)

/-- gcm_none: a failed close match means no candidate reaches the cutoff. -/
theorem gcm_none (word : String) (poss : List String) (cutoff : Rat)
    (h : get_close_match1 word poss cutoff = none) :
    ∀ l ∈ poss, similarity l.data word.data < cutoff := by
  unfold get_close_match1 at h
  cases hb : bestScored word.data
      (poss.filter (fun x => similarity x.data word.data ≥ cutoff)) with
  | some p => rw [hb] at h; cases h
  | none =>
    have hnil := (bestScored_none_iff _ _).mp hb
    intro l hl
    by_contra hc
    have hmem : l ∈ poss.filter (fun x => similarity x.data word.data ≥ cutoff) :=
      List.mem_filter.mpr ⟨hl, by simpa using le_of_not_lt hc⟩
    rw [hnil] at hmem
    cases hmem

/-- claim C9 (amended): the classifier is total with a closed codomain; an
empty input yields the default label without attempting a match; when every
canonical label falls below the 0.6 ratio the default is returned; a
non-default result is a canonical label whose similarity to the lowercased
input is at least (not strictly above) 0.6 and maximal among the canonical
labels; and some canonical label at or above 0.6 guarantees a non-default
result. -/
theorem claim_C9 (value : String) :
    (fuzzy_match_run_type value = DEFAULT_RUN_TYPE ∨
      fuzzy_match_run_type value ∈ VALID_RUN_TYPES) ∧
    (value = "" → fuzzy_match_run_type value = DEFAULT_RUN_TYPE) ∧
    ((∀ l ∈ VALID_RUN_TYPES, similarity l.data (lowerStr value).data < 3 / 5) →
      fuzzy_match_run_type value = DEFAULT_RUN_TYPE) ∧
    (fuzzy_match_run_type value ≠ DEFAULT_RUN_TYPE →
      fuzzy_match_run_type value ∈ VALID_RUN_TYPES ∧
      3 / 5 ≤ similarity (fuzzy_match_run_type value).data (lowerStr value).data ∧
      ∀ l ∈ VALID_RUN_TYPES,
        similarity l.data (lowerStr value).data ≤
          similarity (fuzzy_match_run_type value).data (lowerStr value).data) ∧
    (value ≠ "" →
      (∃ l ∈ VALID_RUN_TYPES, 3 / 5 ≤ similarity l.data (lowerStr value).data) →
      fuzzy_match_run_type value ∈ VALID_RUN_TYPES) := by
  by_cases hv : value = ""
  · subst hv
    refine ⟨Or.inl rfl, fun _ => rfl, fun _ => rfl, fun hne => absurd rfl hne,
      fun hne _ => absurd rfl hne⟩
  · have hcore : fuzzy_match_run_type value =
        match get_close_match1 (lowerStr value) VALID_RUN_TYPES (3 / 5) with
        | some m => m
        | none => DEFAULT_RUN_TYPE := by
      unfold fuzzy_match_run_type
      rw [if_neg hv]
    cases hg : get_close_match1 (lowerStr value) VALID_RUN_TYPES (3 / 5) with
    | none =>
      have hres : fuzzy_match_run_type value = DEFAULT_RUN_TYPE := by rw [hcore, hg]
      have hbelow := gcm_none _ _ _ hg
      refine ⟨Or.inl hres, fun _ => hres, fun _ => hres, fun hne => absurd hres hne,
        fun _ ⟨l, hl, hc⟩ => absurd hc (not_le_of_lt (hbelow l hl))⟩
    | some m =>
      have hres : fuzzy_match_run_type value = m := by rw [hcore, hg]
      obtain ⟨hmem, hcut, hmax⟩ := gcm_some _ _ _ _ hg
      rw [hres]
      refine ⟨Or.inr hmem, fun he => absurd he hv, fun hall => ?_, fun _ => ⟨hmem, hcut, hmax⟩,
        fun _ _ => hmem⟩
      exact absurd (hall m hmem) (not_lt_of_le hcut)

/-- claim C9 counterexample: the input tournaxxxx has similarity exactly 0.6
to the label tournament — not strictly above the threshold — yet the
classifier accepts it and returns tournament instead of the default. -/
theorem claim_C9_counterexample :
    fuzzy_match_run_type "tournaxxxx" = "tournament" ∧
    similarity "tournament".data (lowerStr "tournaxxxx").data = 3 / 5 := by decide

/-- claim C9 witness: the theorem applied to an input below the threshold
for every canonical label, and to a canonical input. -/
theorem claim_C9_witness :
    fuzzy_match_run_type "xyz" = DEFAULT_RUN_TYPE ∧
    fuzzy_match_run_type "milestone" ∈ VALID_RUN_TYPES :=
  ⟨(claim_C9 "xyz").2.2.1 (by decide),
   (claim_C9 "milestone").2.2.2.2 (by decide) ⟨"milestone", by decide, by decide⟩⟩

end Runlog
